import Mathlib

/-!
# Request-logging middleware (`package logging`): embedding and properties

A shallow embedding of `logging.go`: the formatter registry, the package-level
configuration, `InitializeLogger`, the four built-in formatters, the line
assembly of `LogRequest` and the two listings of the registry, followed by the
properties proved about them.

Go strings are modelled as lists of characters.  The program measures strings only
in `msg[:len(msg)-len(Config.Separator)]`, where `msg` is either empty or ends with
the separator, so the unit of length (byte or code point) does not change the result.
-/

namespace Logging

/-- A Go `string`. -/
abbrev GoString := List Char

/-- A Go `error` value: `none` is `nil`. -/
abbrev GoError := Option GoString

/-- The run-time panics `LogRequest` can raise. -/
inductive Panic where
  /-- Slice bounds out of range, from `s[:hi]` with `hi < 0` or `hi > len(s)`. -/
  | sliceBounds
  /-- Index out of range, from `s[i]`. -/
  | indexRange
  /-- Call of a nil function value: what a map lookup of an absent key yields. -/
  | nilFunc
  /-- Method call on a nil interface value (`Config.Writer` unset). -/
  | nilWriter
  deriving DecidableEq, Repr

/-- The part of `*http.Request` the formatters read: `r.Method`, `r.URL.Path` and the
parsed query `r.URL.Query()`, as its key/value pairs in the order of the query string. -/
structure Request where
  Method : GoString
  Path : GoString
  Query : List (GoString × GoString)
  deriving DecidableEq, Repr

/-- An `http.ResponseWriter`, as far as a recorder shows it; no formatter reads it. -/
structure ResponseWriter where
  Code : Nat
  Body : GoString
  deriving DecidableEq, Repr

/-- One reading of `time.Now()`: the seven components `datetime` extracts from it. -/
structure Time where
  Year : Nat
  Month : Nat
  Day : Nat
  Hour : Nat
  Minute : Nat
  Second : Nat
  Nanosecond : Nat
  deriving DecidableEq, Repr

/-- An `io.WriteCloser`: which sink it is, and the error its `Write` reports, if any. -/
structure Writer where
  sink : Nat
  writeErr : GoError
  deriving DecidableEq, Repr

/-- The method `Write` of a sink: the number of bytes it reports and its error. -/
def Writer.Write (wr : Writer) (p : GoString) : Nat × GoError :=
  match wr.writeErr with
  | none => (p.length, none)
  | some e => (0, some e)

/-- The sink `os.Stdout`. -/
def osStdout : Writer := { sink := 1, writeErr := none }

/-- The struct `LoggingConfig`; a nil `Writer` is `none`. -/
structure LoggingConfig where
  DateTimeFormat : GoString
  Separator : GoString
  Writer : Option Writer
  deriving DecidableEq, Repr

/-- A formatter, `func(w http.ResponseWriter, r *http.Request) string`.  The package
globals and the clock a Go function may read are passed explicitly: the active `Config`
and the reading `time.Now()` gives during this call. -/
abbrev Formatter := LoggingConfig → Time → ResponseWriter → Request → GoString

/-- The map `availableFormatters`, as an association list with distinct keys. -/
abbrev Registry := List (GoString × Formatter)

/-- Map lookup `m[key]`: `none` stands for the nil function of an absent key. -/
def Registry.lookup (m : Registry) (key : GoString) : Option Formatter :=
  List.lookup key m

/-- Map assignment `m[key] = f`: replaces the entry of `key` when there is one. -/
def Registry.insert (m : Registry) (key : GoString) (f : Formatter) : Registry :=
  (key, f) :: m.filter (fun e => e.1 != key)

/-! ## `fmt.Sprintf` on the operands `datetime` passes -/

/-- An operand of `fmt.Sprintf` as `datetime` passes it: an `int` (`now.Year()`,
`now.Day()`, ...) or a `time.Month` (`now.Month()`), both non-negative. -/
inductive Arg where
  | int (n : Nat)
  | month (n : Nat)
  deriving DecidableEq, Repr

/-- The integer value of an operand. -/
def Arg.val : Arg → Nat
  | .int n => n
  | .month n => n

/-- The operand's type as `reflect.TypeOf(arg).String()` prints it. -/
def Arg.typeName : Arg → GoString
  | .int _ => "int".toList
  | .month _ => "time.Month".toList

/-- The digit loop of `fmtInteger` for base 10: `for u >= 10 { ... }`, then the leading
digit; `fuel` bounds the number of iterations. -/
def decimalLoop : Nat → Nat → List Char → List Char
  | 0, u, buf => Nat.digitChar u :: buf
  | fuel + 1, u, buf =>
    if 10 ≤ u then decimalLoop fuel (u / 10) (Nat.digitChar (u % 10) :: buf)
    else Nat.digitChar u :: buf

/-- The decimal digits of `u`, most significant first. -/
def decimal (u : Nat) : GoString := decimalLoop u u []

/-- The table `longMonthNames` of package `time`. -/
def longMonthNames : List GoString :=
  ["January".toList, "February".toList, "March".toList, "April".toList, "May".toList,
   "June".toList, "July".toList, "August".toList, "September".toList, "October".toList,
   "November".toList, "December".toList]

/-- The method `String` of `time.Month`. -/
def monthString (m : Nat) : GoString :=
  if 1 ≤ m ∧ m ≤ 12 then longMonthNames.getD (m - 1) []
  else "%!Month(".toList ++ decimal m ++ ")".toList

/-- The flags, width and precision of one directive (`fmt.fmtFlags`, `wid`, `prec`). -/
structure Fmt where
  widPresent : Bool := false
  precPresent : Bool := false
  minus : Bool := false
  plus : Bool := false
  sharp : Bool := false
  space : Bool := false
  zero : Bool := false
  wid : Nat := 0
  prec : Nat := 0
  deriving DecidableEq, Repr

/-- The padding step `f.pad` / `f.padString`: to the left unless `-` is set; `padZero`
says whether the padding is made of zeros. -/
def Fmt.pad (f : Fmt) (padZero : Bool) (b : GoString) : GoString :=
  if !f.widPresent || f.wid == 0 then b
  else
    let padding := List.replicate (f.wid - b.length) (if padZero then '0' else ' ')
    if !f.minus then padding ++ b else b ++ padding

/-- The digits of `u` in the given base, most significant first: `ldigits` or, for the
verb `X`, `udigits`. -/
def intDigits (base : Nat) (upper : Bool) (u : Nat) : List Char :=
  if base = 10 then decimal u
  else if upper then (Nat.toDigits base u).map Char.toUpper
  else Nat.toDigits base u

/-- The function `fmtInteger` for a non-negative value: `%.0d` of zero prints only padding;
a precision, or the `0` flag with a width, asks for leading zeros; `#` adds the prefix of
the base and the verb `O` the prefix `0o`; then the sign character of `+` or space; then
padding with blanks. -/
def Fmt.fmtInteger (f : Fmt) (base : Nat) (verb : Char) (u : Nat) : GoString :=
  if f.precPresent && f.prec == 0 && u == 0 then List.replicate f.wid ' '
  else
    let prec : Nat :=
      if f.precPresent then f.prec
      else if f.zero && !f.minus && f.widPresent then
        (if f.plus || f.space then f.wid - 1 else f.wid)
      else 0
    let digits := intDigits base (verb == 'X') u
    let digits := List.replicate (prec - digits.length) '0' ++ digits
    let digits :=
      if f.sharp then
        if base = 2 then '0' :: 'b' :: digits
        else if base = 8 then (if digits.head? = some '0' then digits else '0' :: digits)
        else if base = 16 then '0' :: (if verb = 'X' then 'X' else 'x') :: digits
        else digits
      else digits
    let digits := if verb = 'O' then '0' :: 'o' :: digits else digits
    let signed := if f.plus then '+' :: digits else if f.space then ' ' :: digits else digits
    f.pad false signed

/-- The function `fmtS`: truncate the string to the precision, then pad it; the `0` flag
pads a string with zeros, on the left only. -/
def Fmt.fmtS (f : Fmt) (s : GoString) : GoString :=
  f.pad (f.zero && !f.minus) (if f.precPresent then s.take f.prec else s)

/-- The code point a rune value stands for: `utf8.RuneError` when the value is above
`utf8.MaxRune` or a surrogate half. -/
def runeOf (u : Nat) : Char :=
  if u.isValidChar then Char.ofNat u else Char.ofNat 0xFFFD

/-- The test `strconv.IsPrint`, exact up to U+00FF.  The tables of package `strconv` for
the code points above are not reproduced: such a code point is taken as printable unless
it is a surrogate half, a private-use code point or above U+10FFFF. -/
def isPrint (r : Nat) : Bool :=
  if r ≤ 0xFF then (0x20 ≤ r && r ≤ 0x7E) || (0xA1 ≤ r && r != 0xAD)
  else !(0xD800 ≤ r && r ≤ 0xF8FF) && r < 0xF0000

/-- A value in lower-case hexadecimal on at least `n` digits. -/
def hexLower (n u : Nat) : GoString :=
  List.replicate (n - (Nat.toDigits 16 u).length) '0' ++ Nat.toDigits 16 u

/-- The function `appendEscapedRune` of package `strconv` for a valid code point `r`:
the quote and the backslash are backslashed, a printable code point stands for itself
(only below U+0080 when `asciiOnly`), the others are written as an escape. -/
def escapedRune (r : Nat) (quote : Nat) (asciiOnly : Bool) : GoString :=
  if r = quote ∨ r = 92 then [Char.ofNat 92, Char.ofNat r]
  else if (asciiOnly = true → r < 0x80) ∧ isPrint r = true then [Char.ofNat r]
  else if r = 7 then [Char.ofNat 92, 'a']
  else if r = 8 then [Char.ofNat 92, 'b']
  else if r = 12 then [Char.ofNat 92, 'f']
  else if r = 10 then [Char.ofNat 92, 'n']
  else if r = 13 then [Char.ofNat 92, 'r']
  else if r = 9 then [Char.ofNat 92, 't']
  else if r = 11 then [Char.ofNat 92, 'v']
  else if r < 0x20 ∨ r = 0x7F then Char.ofNat 92 :: 'x' :: hexLower 2 r
  else if r < 0x10000 then Char.ofNat 92 :: 'u' :: hexLower 4 r
  else Char.ofNat 92 :: 'U' :: hexLower 8 r

/-- The function `fmtC`: the character of the code point, padded. -/
def Fmt.fmtC (f : Fmt) (u : Nat) : GoString :=
  f.pad (f.zero && !f.minus) [runeOf u]

/-- The function `fmtQc`: the character of the code point as a single-quoted Go literal
(ASCII only under `+`), padded. -/
def Fmt.fmtQc (f : Fmt) (u : Nat) : GoString :=
  f.pad (f.zero && !f.minus)
    (Char.ofNat 39 :: escapedRune (runeOf u).toNat 39 f.plus ++ [Char.ofNat 39])

/-- The function `fmtUnicode`: `U+` and the value in upper-case hexadecimal on at least
four digits, or as many as a larger precision asks; under `#` a printable code point
follows in single quotes; then padding with blanks. -/
def Fmt.fmtUnicode (f : Fmt) (u : Nat) : GoString :=
  let prec := if f.precPresent && 4 < f.prec then f.prec else 4
  let digits := intDigits 16 true u
  let digits := List.replicate (prec - digits.length) '0' ++ digits
  let tail : GoString :=
    if f.sharp && u ≤ 0x10FFFF && isPrint u then [' ', Char.ofNat 39, runeOf u, Char.ofNat 39]
    else []
  f.pad false ('U' :: '+' :: digits ++ tail)

/-- The function `fmtSbx` on a string of one-byte characters: two hexadecimal digits per
byte, as many bytes as the precision allows; `#` puts `0x` in front, and with the space
flag the bytes are separated by blanks, each with its own `0x` under `#`. -/
def Fmt.fmtSx (f : Fmt) (upper : Bool) (s : GoString) : GoString :=
  let bytes := if f.precPresent && f.prec < s.length then s.take f.prec else s
  let pre : GoString := if f.sharp then ['0', if upper then 'X' else 'x'] else []
  let hex (c : Char) : GoString :=
    let d := hexLower 2 c.toNat
    if upper then d.map Char.toUpper else d
  match bytes with
  | [] => if f.widPresent then List.replicate f.wid (if f.zero && !f.minus then '0' else ' ')
      else []
  | b :: bs =>
    let body := pre ++ hex b
      ++ (bs.map fun c => if f.space then ' ' :: ((if f.sharp then pre else []) ++ hex c)
            else hex c).flatten
    let padding := List.replicate (f.wid - body.length) (if f.zero && !f.minus then '0' else ' ')
    if f.widPresent then (if !f.minus then padding ++ body else body ++ padding) else body

/-- The test `strconv.CanBackquote` on a string of valid code points. -/
def canBackquote (s : GoString) : Bool :=
  s.all fun c => c.toNat != 96 && c.toNat != 0x7F && c.toNat != 0xFEFF
    && (0x20 ≤ c.toNat || c.toNat == 9)

/-- The function `fmtQ`: the string truncated to the precision, as a double-quoted Go
literal (ASCII only under `+`), or between backquotes under `#` when it can be; padded. -/
def Fmt.fmtQ (f : Fmt) (s : GoString) : GoString :=
  let s := if f.precPresent then s.take f.prec else s
  if f.sharp && canBackquote s then f.pad (f.zero && !f.minus) (Char.ofNat 96 :: s ++ [Char.ofNat 96])
  else
    f.pad (f.zero && !f.minus)
      (Char.ofNat 34 :: (s.map fun c => escapedRune c.toNat 34 f.plus).flatten
        ++ [Char.ofNat 34])

/-- The rendering `%!verb(type=value)` of a verb the operand does not accept; the value is
printed as with `v`, Stringer methods off, the directive's flags still in force. -/
def badVerb (f : Fmt) (verb : Char) (a : Arg) : GoString :=
  "%!".toList ++ [verb] ++ "(".toList ++ a.typeName ++ "=".toList ++ f.fmtInteger 10 'v' a.val
    ++ ")".toList

/-- The method `fmtInteger` of the printer: the integer verbs. -/
def fmtIntegerVerb (f : Fmt) (verb : Char) (a : Arg) : GoString :=
  if verb = 'v' ∨ verb = 'd' then f.fmtInteger 10 verb a.val
  else if verb = 'b' then f.fmtInteger 2 verb a.val
  else if verb = 'o' ∨ verb = 'O' then f.fmtInteger 8 verb a.val
  else if verb = 'x' ∨ verb = 'X' then f.fmtInteger 16 verb a.val
  else if verb = 'c' then f.fmtC a.val
  else if verb = 'q' then f.fmtQc a.val
  else if verb = 'U' then f.fmtUnicode a.val
  else badVerb f verb a

/-- The method `fmtString` of the printer, on the result of a `String` method. -/
def fmtStringVerb (f : Fmt) (verb : Char) (s : GoString) : GoString :=
  if verb = 'x' then f.fmtSx false s
  else if verb = 'X' then f.fmtSx true s
  else if verb = 'q' then f.fmtQ s
  else f.fmtS s

/-- The function `printArg`: `T` prints the type of the operand; an `int` takes the
integer verbs; a `time.Month` is printed by its `String` method under `v` (unless `%#v`),
`s`, `x`, `X` and `q`, and takes the integer verbs otherwise; any other verb is rendered
by `badVerb`. -/
def printArg (f : Fmt) (sharpV : Bool) (verb : Char) (a : Arg) : GoString :=
  if verb = 'T' then f.fmtS a.typeName
  else
    match a with
    | .int _ => fmtIntegerVerb f verb a
    | .month n =>
      if (verb = 'v' ∧ sharpV = false) ∨ verb = 's' ∨ verb = 'x' ∨ verb = 'X' ∨ verb = 'q' then
        fmtStringVerb f verb (monthString n)
      else fmtIntegerVerb f verb a

/-- The verb case of `doPrintf`: for `v` the flags `#` and `+` become `sharpV` and `plusV`
and are cleared before `printArg` runs. -/
def printVerb (f : Fmt) (verb : Char) (a : Arg) : GoString :=
  if verb = 'v' then printArg { f with sharp := false, plus := false } f.sharp verb a
  else printArg f false verb a

/-- The text `%!(EXTRA type=value, ...)` appended when operands are left over. -/
def extraArgs : List Arg → GoString
  | [] => []
  | a :: as =>
    "%!(EXTRA ".toList
      ++ ", ".toList.intercalate ((a :: as).map fun x => x.typeName ++ '=' :: printArg {} false 'v' x)
      ++ ")".toList

/-- The state of the printer inside `doPrintf`: the flags of the current directive, the
index of the next operand, and the marks `afterIndex`, `goodArgNum` and `reordered`. -/
structure PState where
  f : Fmt := {}
  argNum : Nat := 0
  afterIndex : Bool := false
  goodArgNum : Bool := true
  reordered : Bool := false
  deriving DecidableEq, Repr

/-- Where `doPrintf` stands inside the format: in plain text, or inside a directive, at
one of the points between two characters of it. -/
inductive Phase where
  /-- Outside a directive. -/
  | text
  /-- After the `%` and any flags. -/
  | flags
  /-- Inside the brackets of an operand index; `resume` is the point after them. -/
  | inBracket (resume : Phase)
  /-- After an operand index in front of the width. -/
  | widthStart
  /-- After one or more digits of the width. -/
  | width
  /-- After a width `*`. -/
  | afterWidth
  /-- After the `.` that opens the precision. -/
  | precStart
  /-- After an operand index in front of the precision. -/
  | precStart2
  /-- After one or more digits of the precision. -/
  | prec
  /-- After a precision `*`. -/
  | afterPrec
  /-- After an operand index in front of the verb. -/
  | verbOnly
  deriving DecidableEq, Repr

/-- What `doPrintf` does with one character of the format. -/
inductive Action where
  /-- Copy the character to the output. -/
  | emit
  /-- The character belongs to the directive: write `out` and go on at this point. -/
  | goto (out : GoString) (ph : Phase) (st : PState)
  /-- The character is the verb. -/
  | verb (st : PState)
  /-- A width or precision above the limit of `parsenum`: the rest of the format is lost. -/
  | tooLarge (st : PState)
  deriving DecidableEq, Repr

/-- The value of a decimal digit character. -/
def digitVal (c : Char) : Nat := c.toNat - '0'.toNat

/-- The function `parsenum` on the text between the brackets of an operand index: its
value when it is made of digits only and never passes the limit before a digit. -/
def parseDigits : List Char → Nat → Option Nat
  | [], num => some num
  | c :: cs, num =>
    if c.isDigit then
      if 1000000 < num then none else parseDigits cs (num * 10 + digitVal c)
    else none

/-- The function `parseArgNumber` on the format after a `[`: whether a closing bracket is
consumed with the index, and the number between the brackets when it parses. -/
def parseArgNumber (cs : List Char) : Bool × Option Nat :=
  if cs.length < 2 then (false, none)
  else if cs.contains ']' then
    let content := cs.takeWhile (fun c => c != ']')
    (true, if content = [] then none else parseDigits content 0)
  else (false, none)

/-- The method `argNumber` at a `[`: the index becomes the next operand when it parses
and is in range, and `goodArgNum` is lost otherwise; with it, whether the text up to the
closing bracket is consumed. -/
def argNumber (a : List Arg) (st : PState) (cs : List Char) : PState × Bool :=
  match parseArgNumber cs with
  | (skip, some n) =>
    if 1 ≤ n ∧ n - 1 < a.length then
      ({ st with reordered := true, argNum := n - 1, afterIndex := true }, skip)
    else ({ st with reordered := true, goodArgNum := false, afterIndex := true }, skip)
  | (skip, none) => ({ st with reordered := true, goodArgNum := false, afterIndex := false }, skip)

/-- The function `intFromArg`: the operand taken as a width or precision, whether it is
usable (an integer no larger than the limit), and the index of the next operand. -/
def intFromArg (a : List Arg) (argNum : Nat) : Nat × Bool × Nat :=
  match a.get? argNum with
  | none => (0, false, argNum)
  | some x => if 1000000 < x.val then (0, false, argNum + 1) else (x.val, true, argNum + 1)

/-- The reading of a `[` in front of the point `resume`. -/
def atBracket (a : List Arg) (st : PState) (cs : List Char) (resume : Phase) : Action :=
  match argNumber a st cs with
  | (st', true) => .goto [] (.inBracket resume) st'
  | (st', false) => .goto [] resume st'

/-- The reading of one character in front of the verb: an operand index, unless one was
just read, or the verb. -/
def atVerb (a : List Arg) (st : PState) (c : Char) (cs : List Char) : Action :=
  if st.afterIndex = false ∧ c = '[' then atBracket a st cs .verbOnly else .verb st

/-- The reading of one character where the precision may start, after its operand index
if any: a `*`, a first digit, or no number at all, which is the precision zero. -/
def atPrecision (a : List Arg) (st : PState) (c : Char) (cs : List Char) : Action :=
  if c = '*' then
    match intFromArg a st.argNum with
    | (num, isInt, next) =>
      .goto (if isInt then [] else "%!(BADPREC)".toList) .afterPrec
        { st with f := { st.f with prec := num, precPresent := isInt }, argNum := next,
                  afterIndex := false }
  else if c.isDigit then
    .goto [] .prec { st with f := { st.f with prec := digitVal c, precPresent := true } }
  else atVerb a { st with f := { st.f with prec := 0, precPresent := true } } c cs

/-- The reading of one character after the width: the `.` that opens the precision when
it is not the last character of the format, or what comes in front of the verb. -/
def atDot (a : List Arg) (st : PState) (c : Char) (cs : List Char) : Action :=
  if c = '.' ∧ cs ≠ [] then
    .goto [] .precStart { st with goodArgNum := st.goodArgNum && !st.afterIndex }
  else atVerb a st c cs

/-- The reading of one character where the width may start, after its operand index if
any: a `*`, a first digit, or no width. -/
def atWidth (a : List Arg) (st : PState) (c : Char) (cs : List Char) : Action :=
  if c = '*' then
    match intFromArg a st.argNum with
    | (num, isInt, next) =>
      .goto (if isInt then [] else "%!(BADWIDTH)".toList) .afterWidth
        { st with f := { st.f with wid := num, widPresent := isInt }, argNum := next,
                  afterIndex := false }
  else if c.isDigit then
    .goto [] .width
      { st with f := { st.f with wid := digitVal c, widPresent := true },
                goodArgNum := st.goodArgNum && !st.afterIndex }
  else atDot a st c cs

/-- The reading of one character of the format at each point. -/
def classify (a : List Arg) (ph : Phase) (st : PState) (c : Char) (cs : List Char) : Action :=
  match ph with
  | .text =>
    if c = '%' then
      .goto [] .flags { st with f := {}, afterIndex := false, goodArgNum := true }
    else .emit
  | .flags =>
    if c = '#' then .goto [] .flags { st with f := { st.f with sharp := true } }
    else if c = '0' then .goto [] .flags { st with f := { st.f with zero := true } }
    else if c = '+' then .goto [] .flags { st with f := { st.f with plus := true } }
    else if c = '-' then .goto [] .flags { st with f := { st.f with minus := true } }
    else if c = ' ' then .goto [] .flags { st with f := { st.f with space := true } }
    else if c = '[' then atBracket a st cs .widthStart
    else atWidth a st c cs
  | .inBracket resume =>
    if c = ']' then .goto [] resume st else .goto [] (.inBracket resume) st
  | .widthStart => atWidth a st c cs
  | .width =>
    if c.isDigit then
      if 1000000 < st.f.wid then .tooLarge st
      else .goto [] .width { st with f := { st.f with wid := st.f.wid * 10 + digitVal c } }
    else atDot a st c cs
  | .afterWidth => atDot a st c cs
  | .precStart =>
    if c = '[' then atBracket a st cs .precStart2
    else atPrecision a { st with afterIndex := false } c cs
  | .precStart2 => atPrecision a st c cs
  | .prec =>
    if c.isDigit then
      if 1000000 < st.f.prec then .tooLarge st
      else .goto [] .prec { st with f := { st.f with prec := st.f.prec * 10 + digitVal c } }
    else atVerb a st c cs
  | .afterPrec => atVerb a st c cs
  | .verbOnly => .verb st

/-- The text `%!(NOVERB)` written when the format ends inside a directive. -/
def noVerbString : GoString := "%!(NOVERB)".toList

/-- The check for operands left over at the end of `doPrintf`, skipped once an operand
index has been met. -/
def extraOf (a : List Arg) (st : PState) : GoString :=
  if st.reordered then [] else extraArgs (a.drop st.argNum)

/-- The verb case of `doPrintf`: `%%` takes no operand; a lost `goodArgNum` gives
`%!verb(BADINDEX)`; no operand left gives `%!verb(MISSING)`; else the operand is printed
and the next one becomes current. -/
def verbStep (a : List Arg) (st : PState) (verb : Char) : GoString × PState :=
  if verb = '%' then (['%'], st)
  else if st.goodArgNum = false then ("%!".toList ++ [verb] ++ "(BADINDEX)".toList, st)
  else
    match a.get? st.argNum with
    | none => ("%!".toList ++ [verb] ++ "(MISSING)".toList, st)
    | some x => (printVerb st.f verb x, { st with argNum := st.argNum + 1 })

/-- The loop of `doPrintf` over the format, for `int` and `time.Month` operands that are
not negative: plain text, `%%`, the flags `# 0 + - space`, operand indexes `[n]`, a width
and a precision given in digits or as `*`, the verbs of `printArg`, and the texts for a
missing operand, a bad index, width or precision, operands left over and a format that
ends inside a directive.  The verb `w` is taken as a verb that no operand accepts. -/
def doPrintf (a : List Arg) : List Char → Phase → PState → GoString
  | [], .text, st => extraOf a st
  | [], _, st => noVerbString ++ extraOf a st
  | c :: cs, ph, st =>
    match classify a ph st c cs with
    | .emit => c :: doPrintf a cs .text st
    | .goto out ph' st' => out ++ doPrintf a cs ph' st'
    | .tooLarge st' => noVerbString ++ extraOf a st'
    | .verb st' => (verbStep a st' c).1 ++ doPrintf a cs .text (verbStep a st' c).2

/-- The call `fmt.Sprintf(format, a...)`. -/
def Sprintf (format : GoString) (a : List Arg) : GoString :=
  doPrintf a format .text {}

/-! ## The built-in formatters -/

/-- The operands of the call in `datetime`, in the order written there: `now.Year()`,
`now.Month()`, `now.Day()`, `now.Hour()`, `now.Minute()`, `now.Second()` and
`now.Nanosecond()`; the second is a `time.Month`, the others are `int`. -/
def operands (now : Time) : List Arg :=
  [.int now.Year, .month now.Month, .int now.Day, .int now.Hour, .int now.Minute,
   .int now.Second, .int now.Nanosecond]

/-- The body of `datetime` with the library function it calls as a parameter:
`sprintf(Config.DateTimeFormat, now.Year(), now.Month(), ...)`. -/
def datetimeWith (sprintf : GoString → List Arg → GoString) : Formatter :=
  fun cfg now _ _ => sprintf cfg.DateTimeFormat (operands now)

/-- The formatter `datetime`: the configured template applied by `fmt.Sprintf` to the
components of `time.Now()`. -/
def datetime : Formatter := datetimeWith Sprintf

/-- The formatter `requestMethod`: `r.Method`. -/
def requestMethod : Formatter := fun _ _ _ r => r.Method

/-- The formatter `endpoint`: `r.URL.Path`. -/
def endpoint : Formatter := fun _ _ _ r => r.Path

/-- The method `Get` of `url.Values`: the first value of `key`, or the empty string. -/
def valuesGet (q : List (GoString × GoString)) (key : GoString) : GoString :=
  match q.find? (fun kv => kv.1 == key) with
  | some kv => kv.2
  | none => []

/-- The formatter `identifier`: `r.URL.Query().Get("id")`. -/
def identifier : Formatter := fun _ _ _ r => valuesGet r.Query "id".toList

/-- The package-level variables. -/
structure State where
  availableFormatters : Registry
  enabledFormatters : List GoString
  Config : LoggingConfig
  DefaultLoggingConfig : LoggingConfig

/-- The slice expression `s[:hi]` on a slice or string of length `len(s)`. -/
def sliceTo {α : Type} (s : List α) (hi : Int) : Except Panic (List α) :=
  if 0 ≤ hi ∧ hi ≤ (s.length : Int) then .ok (s.take hi.toNat) else .error .sliceBounds

/-- The index expression `s[i]`. -/
def indexAt {α : Type} (s : List α) (i : Int) : Except Panic α :=
  if 0 ≤ i then
    match s.get? i.toNat with
    | some a => .ok a
    | none => .error .indexRange
  else .error .indexRange

/-- The call `availableFormatters[key](w, r)`. -/
def callFormatter (reg : Registry) (cfg : LoggingConfig) (t : Time) (w : ResponseWriter)
    (r : Request) (key : GoString) : Except Panic GoString :=
  match reg.lookup key with
  | none => .error .nilFunc
  | some f => .ok (f cfg t w r)

/-- The `for ... range` loop of `LogRequest` (lines 100-104) over the keys still to
visit; `i` is the position of the next key and `now i` the clock reading its formatter
sees; `msg` is the line accumulated so far. -/
def LogRequest.loop (reg : Registry) (cfg : LoggingConfig) (now : Nat → Time)
    (w : ResponseWriter) (r : Request) : List GoString → Nat → GoString → Except Panic GoString
  | [], _, msg => .ok msg
  | key :: keys, i, msg =>
    match callFormatter reg cfg (now i) w r key with
    | .error p => .error p
    | .ok thisMsg =>
      if thisMsg ≠ [] then
        LogRequest.loop reg cfg now w r keys (i + 1) (msg ++ (thisMsg ++ cfg.Separator))
      else
        LogRequest.loop reg cfg now w r keys (i + 1) msg

/-- The line `LogRequest` assembles (lines 99-109), or the panic that stops it. -/
def LogRequest.line (s : State) (now : Nat → Time) (w : ResponseWriter) (r : Request) :
    Except Panic GoString :=
  let n : Int := s.enabledFormatters.length
  match sliceTo s.enabledFormatters (n - 1) with
  | .error p => .error p
  | .ok front =>
    match LogRequest.loop s.availableFormatters s.Config now w r front 0 [] with
    | .error p => .error p
    | .ok msg =>
      match indexAt s.enabledFormatters (n - 1) with
      | .error p => .error p
      | .ok lastKey =>
        match callFormatter s.availableFormatters s.Config (now front.length) w r lastKey with
        | .error p => .error p
        | .ok lastMsg =>
          if lastMsg ≠ [] then .ok (msg ++ (lastMsg ++ ['\n']))
          else
            match sliceTo msg ((msg.length : Int) - (s.Config.Separator.length : Int)) with
            | .error p => .error p
            | .ok front' => .ok (front' ++ ['\n'])

/-- What one call of `LogRequest` does: the panic that ended it, if any, and the `Write`
calls it made, each with the sink written and the bytes passed. -/
structure Outcome where
  panic : Option Panic
  writes : List (Writer × GoString)
  deriving DecidableEq, Repr

/-- The function `LogRequest(w, r)`: assemble the line, then `Config.Writer.Write(...)` (line 110),
whose results are discarded. -/
def LogRequest (s : State) (now : Nat → Time) (w : ResponseWriter) (r : Request) : Outcome :=
  match LogRequest.line s now w r with
  | .error p => { panic := some p, writes := [] }
  | .ok msg =>
    match s.Config.Writer with
    | none => { panic := some .nilWriter, writes := [] }
    | some wr =>
      let _ := wr.Write msg
      { panic := none, writes := [(wr, msg)] }

/-- The function `InitializeLogger(configuration, formattersToEnable...)`: the new state and
the returned error. -/
def InitializeLogger (s : State) (configuration : LoggingConfig)
    (formattersToEnable : List GoString) : State × GoError :=
  ({ s with Config := configuration, enabledFormatters := formattersToEnable }, none)

/-- The state `func init()` leaves: the default configuration, the registry of the four
built-in formatters, four empty names enabled, and `Config` still at its zero value. -/
def init : State :=
  { DefaultLoggingConfig :=
      { DateTimeFormat := "%02d-%02d-%04d %02d:%02d:%02d.%d".toList
        Separator := " - ".toList
        Writer := some osStdout }
    availableFormatters :=
      Registry.insert
        (Registry.insert
          (Registry.insert (Registry.insert [] "datetime".toList datetime)
            "method".toList requestMethod)
          "endpoint".toList endpoint)
        "identifier".toList identifier
    enabledFormatters := List.replicate 4 []
    Config := { DateTimeFormat := [], Separator := [], Writer := none } }

/-! ## The listings of the registry -/

/-- The keys of the map, in the order the association list holds them. -/
def Registry.keys (m : Registry) : List GoString := m.map Prod.fst

/-- The loop of `ListAvailableFormatters` (lines 90-92) over the keys in the order the
`range` visits them: `out += key + " "`. -/
def ListAvailableFormatters.loop : List GoString → GoString → GoString
  | [], out => out
  | key :: keys, out => ListAvailableFormatters.loop keys (out ++ (key ++ " ".toList))

/-- The function `ListAvailableFormatters()`.  A `range` over a map visits its keys in an
order the runtime chooses at each loop: `rangeOrder` is that choice, applied to the keys
of `availableFormatters`. -/
def ListAvailableFormatters (s : State) (rangeOrder : List GoString → List GoString) :
    Except Panic GoString :=
  let out := ListAvailableFormatters.loop (rangeOrder s.availableFormatters.keys) []
  sliceTo out ((out.length : Int) - 1)

/-- The loop of `PrettyListAvailableFormatters` (lines 80-82): `out += "  " + key + ",\n"`. -/
def PrettyListAvailableFormatters.loop : List GoString → GoString → GoString
  | [], out => out
  | key :: keys, out =>
    PrettyListAvailableFormatters.loop keys (out ++ ("  ".toList ++ key ++ ",\n".toList))

/-- The function `PrettyListAvailableFormatters()`, with the order of the `range` as for
`ListAvailableFormatters`: the last two bytes are cut off and a newline is appended. -/
def PrettyListAvailableFormatters (s : State) (rangeOrder : List GoString → List GoString) :
    Except Panic GoString :=
  let out := PrettyListAvailableFormatters.loop (rangeOrder s.availableFormatters.keys) []
  match sliceTo out ((out.length : Int) - 2) with
  | .error p => .error p
  | .ok front => .ok (front ++ "\n".toList)

/-! ## Notions used to state the properties -/

/-- The strings the formatters named by `keys` return, the first one being called at
position `i`; a name without a registered formatter contributes the empty string. -/
def resultsFrom (reg : Registry) (cfg : LoggingConfig) (now : Nat → Time) (w : ResponseWriter)
    (r : Request) : List GoString → Nat → List GoString
  | [], _ => []
  | key :: keys, i =>
    (match reg.lookup key with
      | some f => f cfg (now i) w r
      | none => []) :: resultsFrom reg cfg now w r keys (i + 1)

/-- The results of the enabled formatters for one call of `LogRequest`, in the configured
order. -/
def results (s : State) (now : Nat → Time) (w : ResponseWriter) (r : Request) : List GoString :=
  resultsFrom s.availableFormatters s.Config now w r s.enabledFormatters 0

/-- Every enabled name has a formatter in the registry. -/
def allRegistered (s : State) : Prop :=
  ∀ key ∈ s.enabledFormatters, (s.availableFormatters.lookup key).isSome = true

/-- Each field followed by the separator, concatenated: what the loop accumulates. -/
def sepCat (sep : GoString) (fields : List GoString) : GoString :=
  (fields.map (· ++ sep)).flatten

/-- A non-empty run of decimal digits: what `\d+` matches. -/
def isDigits (d : GoString) : Prop :=
  d ≠ [] ∧ ∀ c ∈ d, c.isDigit = true

/-- The decimal digits of `n`, with zeros in front up to `wid` characters: `%0<wid>d`. -/
def zeroPad (wid n : Nat) : GoString :=
  List.replicate (wid - (decimal n).length) '0' ++ decimal n

/-- The rendering the specification gives for the default template, `MM-DD-YYYY
hh:mm:ss.ns`: the month and the day on two digits, the year on four, the time of day on
two digits each, then the nanoseconds. -/
def datetimeSpec (t : Time) : GoString :=
  zeroPad 2 t.Month ++ "-".toList ++ zeroPad 2 t.Day ++ "-".toList ++ zeroPad 4 t.Year
    ++ " ".toList ++ zeroPad 2 t.Hour ++ ":".toList ++ zeroPad 2 t.Minute ++ ":".toList
    ++ zeroPad 2 t.Second ++ ".".toList ++ decimal t.Nanosecond

/-- The four built-in names in the order `TestLogger` enables them. -/
def allFour : List GoString :=
  ["datetime".toList, "method".toList, "endpoint".toList, "identifier".toList]

/-- An order a `range` over a map can take: every key once, in any order. -/
def validRange (rangeOrder : List GoString → List GoString) : Prop :=
  ∀ keys : List GoString, (rangeOrder keys).Perm keys

/-- A formatter whose result is a function of the request alone: the same string for the
same request, whatever the configuration, the clock and the response writer. -/
def requestPure (f : Formatter) : Prop :=
  ∀ (cfg cfg' : LoggingConfig) (t t' : Time) (w w' : ResponseWriter) (r : Request),
    f cfg t w r = f cfg' t' w' r

/-- A formatter that returns the same string for the same request and response, whatever
the configuration and the clock: the purity the specification gives every built-in. -/
def pairPure (f : Formatter) : Prop :=
  ∀ (cfg cfg' : LoggingConfig) (t t' : Time) (w : ResponseWriter) (r : Request),
    f cfg t w r = f cfg' t' w r

/-- The state `s` with the configured sink replaced. -/
def withWriter (s : State) (wr : Option Writer) : State :=
  { s with Config := { s.Config with Writer := wr } }

/-- The `Write` calls of an outcome as the sink written and the bytes passed. -/
def Outcome.sinkWrites (o : Outcome) : List (Nat × GoString) :=
  o.writes.map fun x => (x.1.sink, x.2)

/-- A directive of a template as it is written: the flag characters, the digits of the
width, the digits after the `.` when there is one, and the verb. -/
structure Directive where
  flags : List Char
  width : List Char
  prec : Option (List Char)
  verb : Char
  deriving DecidableEq, Repr

/-- The five flag characters of a directive. -/
def isFlag (c : Char) : Bool :=
  c == '#' || c == '0' || c == '+' || c == '-' || c == ' '

/-- The directives this development states the positional rendering for: flags, a width
of at most six digits that does not start with `0`, a precision of at most six digits,
and one of the verbs `d`, `v`, `s`. -/
def Directive.wellFormed (d : Directive) : Prop :=
  (∀ c ∈ d.flags, isFlag c = true)
    ∧ (∀ c ∈ d.width, c.isDigit = true) ∧ d.width.head? ≠ some '0' ∧ d.width.length ≤ 6
    ∧ (∀ p, d.prec = some p → (∀ c ∈ p, c.isDigit = true) ∧ p.length ≤ 6)
    ∧ (d.verb = 'd' ∨ d.verb = 'v' ∨ d.verb = 's')

/-- The text of the precision of a directive: nothing, or `.` and its digits. -/
def precText : Option (List Char) → GoString
  | none => []
  | some p => '.' :: p

/-- The text of a directive inside a template: `%`, flags, width, `.` and precision,
verb. -/
def Directive.text (d : Directive) : GoString :=
  '%' :: (d.flags ++ (d.width ++ (precText d.prec ++ [d.verb])))

/-- The flag a flag character sets. -/
def addFlag (f : Fmt) (c : Char) : Fmt :=
  if c = '#' then { f with sharp := true }
  else if c = '0' then { f with zero := true }
  else if c = '+' then { f with plus := true }
  else if c = '-' then { f with minus := true }
  else if c = ' ' then { f with space := true }
  else f

/-- The number a run of decimal digits writes, continuing from `start`. -/
def digitsValue (ds : List Char) (start : Nat) : Nat :=
  ds.foldl (fun n c => n * 10 + digitVal c) start

/-- The flags `f` with the width the digits `w` write, when there are any. -/
def withWidth (f : Fmt) (w : List Char) : Fmt :=
  if w = [] then f else { f with wid := digitsValue w 0, widPresent := true }

/-- The flags `f` with the precision written after the `.`, when there is one. -/
def withPrec (f : Fmt) : Option (List Char) → Fmt
  | none => f
  | some p => { f with prec := digitsValue p 0, precPresent := true }

/-- The flags, width and precision a directive asks for. -/
def Directive.fmt (d : Directive) : Fmt :=
  withPrec (withWidth (d.flags.foldl addFlag {}) d.width) d.prec

/-- What a directive prints for one operand. -/
def Directive.render (d : Directive) (x : Arg) : GoString :=
  printVerb d.fmt d.verb x

/-- Plain text of a template: no `%` in it. -/
def plainText (t : GoString) : Prop := '%' ∉ t

/-- The template made of the text `t₀` and then, in order, each directive followed by
its text. -/
def template (t₀ : GoString) (ds : List (Directive × GoString)) : GoString :=
  t₀ ++ (ds.map fun p => p.1.text ++ p.2).flatten

/-- The result of applying directives to operands by position: the text `t₀`, then for
each directive what it prints for the operand at the same position, followed by its text. -/
def renderInOrder (t₀ : GoString) (ds : List (Directive × GoString)) (xs : List Arg) : GoString :=
  t₀ ++ (List.zipWith (fun p x => p.1.render x ++ p.2) ds xs).flatten

/-- The printer state at the points met inside a directive without operand index. -/
def plainState (f : Fmt) (k : Nat) (ro : Bool) : PState :=
  { f := f, argNum := k, afterIndex := false, goodArgNum := true, reordered := ro }

/-- The default template cut into its seven directives, each with the text after it. -/
def defaultPieces : List (Directive × GoString) :=
  [({ flags := ['0'], width := ['2'], prec := none, verb := 'd' }, "-".toList),
   ({ flags := ['0'], width := ['2'], prec := none, verb := 'd' }, "-".toList),
   ({ flags := ['0'], width := ['4'], prec := none, verb := 'd' }, " ".toList),
   ({ flags := ['0'], width := ['2'], prec := none, verb := 'd' }, ":".toList),
   ({ flags := ['0'], width := ['2'], prec := none, verb := 'd' }, ":".toList),
   ({ flags := ['0'], width := ['2'], prec := none, verb := 'd' }, ".".toList),
   ({ flags := [], width := [], prec := none, verb := 'd' }, [])]

/-! ## Example inputs -/

/-- The request of `TestLogger`: `GET http://example.com/test?id=testid`. -/
def testRequest : Request :=
  { Method := "GET".toList, Path := "/test".toList, Query := [("id".toList, "testid".toList)] }

/-- The same request without a query string: `GET http://example.com/test`. -/
def plainRequest : Request :=
  { Method := "GET".toList, Path := "/test".toList, Query := [] }

/-- A fresh `httptest.NewRecorder()`. -/
def testRecorder : ResponseWriter := { Code := 200, Body := [] }

/-- A clock that reads 2018-07-04 09:05:03.000000123 at every call. -/
def testClock : Nat → Time := fun _ =>
  { Year := 2018, Month := 7, Day := 4, Hour := 9, Minute := 5, Second := 3, Nanosecond := 123 }

/-- The package state after `init` and `InitializeLogger(DefaultLoggingConfig, names...)`. -/
def defaultLogger (names : List GoString) : State :=
  (InitializeLogger init init.DefaultLoggingConfig names).1

/-! ## Lemmas on the line assembly -/

theorem sepCat_append_last (sep : GoString) (xs : List GoString) (y : GoString) :
    sepCat sep xs ++ y = sep.intercalate (xs ++ [y]) := by
  induction xs with
  | nil => simp [sepCat, List.intercalate]
  | cons x xs ih =>
    cases xs with
    | nil => simp [sepCat, List.intercalate]
    | cons x' xs' =>
      have := ih
      simp only [sepCat, List.intercalate, List.map_cons, List.flatten_cons, List.cons_append,
        List.intersperse, List.append_assoc] at this ⊢
      simp [this]

theorem sepCat_cons_eq (sep : GoString) (x : GoString) (xs : List GoString) :
    sepCat sep (x :: xs) = sep.intercalate (x :: xs) ++ sep := by
  induction xs generalizing x with
  | nil => simp [sepCat, List.intercalate]
  | cons x' xs' ih =>
    have := ih x'
    simp only [sepCat, List.intercalate, List.map_cons, List.flatten_cons, List.intersperse,
      List.append_assoc] at this ⊢
    simp [this]

theorem sliceTo_strip (a sep : GoString) :
    sliceTo (a ++ sep) (((a ++ sep).length : Int) - (sep.length : Int)) = .ok a := by
  simp [sliceTo]

theorem loop_ok (reg : Registry) (cfg : LoggingConfig) (now : Nat → Time) (w : ResponseWriter)
    (r : Request) (keys : List GoString) :
    ∀ (i : Nat) (msg : GoString), (∀ key ∈ keys, (reg.lookup key).isSome = true) →
      LogRequest.loop reg cfg now w r keys i msg
        = .ok (msg ++ sepCat cfg.Separator
            ((resultsFrom reg cfg now w r keys i).filter (fun x => x ≠ []))) := by
  induction keys with
  | nil => intro i msg _; simp [LogRequest.loop, resultsFrom, sepCat]
  | cons key keys ih =>
    intro i msg h
    have hk : (reg.lookup key).isSome = true := h key (List.mem_cons_self _ _)
    obtain ⟨f, hf⟩ := Option.isSome_iff_exists.mp hk
    have hrest : ∀ k ∈ keys, (reg.lookup k).isSome = true :=
      fun k hk' => h k (List.mem_cons_of_mem _ hk')
    by_cases hne : f cfg (now i) w r = []
    · simp [LogRequest.loop, callFormatter, resultsFrom, hf, hne, ih _ _ hrest]
    · simp [LogRequest.loop, callFormatter, resultsFrom, hf, hne, ih _ _ hrest, sepCat]

theorem loop_unregistered (reg : Registry) (cfg : LoggingConfig) (now : Nat → Time)
    (w : ResponseWriter) (r : Request) (keys : List GoString) :
    ∀ (i : Nat) (msg : GoString), (∃ key ∈ keys, reg.lookup key = none) →
      LogRequest.loop reg cfg now w r keys i msg = .error .nilFunc := by
  induction keys with
  | nil => intro i msg h; simp at h
  | cons key keys ih =>
    intro i msg h
    cases hk : reg.lookup key with
    | none => simp [LogRequest.loop, callFormatter, hk]
    | some f =>
      have hrest : ∃ k ∈ keys, reg.lookup k = none := by
        obtain ⟨k, hmem, hnone⟩ := h
        rcases List.mem_cons.mp hmem with rfl | hmem'
        · rw [hk] at hnone; cases hnone
        · exact ⟨k, hmem', hnone⟩
      by_cases hne : f cfg (now i) w r = []
      · simp [LogRequest.loop, callFormatter, hk, hne, ih _ _ hrest]
      · simp [LogRequest.loop, callFormatter, hk, hne, ih _ _ hrest]

theorem resultsFrom_append (reg : Registry) (cfg : LoggingConfig) (now : Nat → Time)
    (w : ResponseWriter) (r : Request) (xs ys : List GoString) :
    ∀ i : Nat, resultsFrom reg cfg now w r (xs ++ ys) i
      = resultsFrom reg cfg now w r xs i ++ resultsFrom reg cfg now w r ys (i + xs.length) := by
  induction xs with
  | nil => intro i; simp [resultsFrom]
  | cons x xs ih =>
    intro i
    simp [resultsFrom, ih, Nat.add_assoc, Nat.add_comm 1]

theorem sliceTo_front (front : List GoString) (lastKey : GoString) :
    sliceTo (front ++ [lastKey]) (((front ++ [lastKey]).length : Int) - 1) = .ok front := by
  simp [sliceTo]

theorem indexAt_last (front : List GoString) (lastKey : GoString) :
    indexAt (front ++ [lastKey]) (((front ++ [lastKey]).length : Int) - 1) = .ok lastKey := by
  simp [indexAt]

theorem line_eq (s : State) (now : Nat → Time) (w : ResponseWriter) (r : Request)
    (front : List GoString) (lastKey : GoString) (f : Formatter)
    (hen : s.enabledFormatters = front ++ [lastKey])
    (hfront : ∀ key ∈ front, (s.availableFormatters.lookup key).isSome = true)
    (hlast : s.availableFormatters.lookup lastKey = some f) :
    LogRequest.line s now w r =
      if f s.Config (now front.length) w r ≠ [] then
        .ok (sepCat s.Config.Separator
              ((resultsFrom s.availableFormatters s.Config now w r front 0).filter
                (fun x => x ≠ []))
            ++ (f s.Config (now front.length) w r ++ ['\n']))
      else
        match sliceTo
            (sepCat s.Config.Separator
              ((resultsFrom s.availableFormatters s.Config now w r front 0).filter
                (fun x => x ≠ [])))
            (((sepCat s.Config.Separator
              ((resultsFrom s.availableFormatters s.Config now w r front 0).filter
                (fun x => x ≠ []))).length : Int) - (s.Config.Separator.length : Int)) with
        | .error p => .error p
        | .ok a => .ok (a ++ ['\n']) := by
  unfold LogRequest.line
  simp only [hen, sliceTo_front, indexAt_last, loop_ok _ _ _ _ _ front 0 [] hfront,
    callFormatter, hlast, List.nil_append]

theorem results_eq (s : State) (now : Nat → Time) (w : ResponseWriter) (r : Request)
    (front : List GoString) (lastKey : GoString) (f : Formatter)
    (hen : s.enabledFormatters = front ++ [lastKey])
    (hlast : s.availableFormatters.lookup lastKey = some f) :
    results s now w r
      = resultsFrom s.availableFormatters s.Config now w r front 0
          ++ [f s.Config (now front.length) w r] := by
  simp [results, hen, resultsFrom_append, resultsFrom, hlast]

theorem resultsFrom_length (reg : Registry) (cfg : LoggingConfig) (now : Nat → Time)
    (w : ResponseWriter) (r : Request) (keys : List GoString) :
    ∀ i : Nat, (resultsFrom reg cfg now w r keys i).length = keys.length := by
  induction keys with
  | nil => intro i; rfl
  | cons k ks ih => intro i; simp [resultsFrom, ih]

theorem eq_append_last {α : Type} (l : List α) (hne : l ≠ []) :
    ∃ front last, l = front ++ [last] := by
  rcases List.eq_nil_or_concat l with h | ⟨front, last, h⟩
  · exact absurd h hne
  · exact ⟨front, last, by rw [h, List.concat_eq_append]⟩

/-- A state with at least one enabled name, all of them registered, splits into the names
the loop visits and the last name with its formatter. -/
theorem split_enabled (s : State) (hne : s.enabledFormatters ≠ []) (hreg : allRegistered s) :
    ∃ front lastKey f, s.enabledFormatters = front ++ [lastKey]
      ∧ (∀ key ∈ front, (s.availableFormatters.lookup key).isSome = true)
      ∧ s.availableFormatters.lookup lastKey = some f := by
  obtain ⟨front, lastKey, h⟩ := eq_append_last s.enabledFormatters hne
  have hl : (s.availableFormatters.lookup lastKey).isSome = true :=
    hreg lastKey (by rw [h]; simp)
  obtain ⟨f, hf⟩ := Option.isSome_iff_exists.mp hl
  refine ⟨front, lastKey, f, h, ?_, hf⟩
  intro key hkey
  exact hreg key (by rw [h]; simp [hkey])

/-- The line written when the last enabled formatter returns a non-empty string. -/
theorem writes_of_last_nonempty (s : State) (now : Nat → Time) (w : ResponseWriter)
    (r : Request) (wr : Writer) (last : GoString)
    (hreg : allRegistered s) (hw : s.Config.Writer = some wr)
    (hlast : (results s now w r).getLast? = some last) (hne : last ≠ []) :
    LogRequest s now w r =
      { panic := none
        writes := [(wr, s.Config.Separator.intercalate
          ((results s now w r).filter (fun x => x ≠ [])) ++ ['\n'])] } := by
  have hen : s.enabledFormatters ≠ [] := by
    intro h
    simp [results, h, resultsFrom] at hlast
  obtain ⟨front, lastKey, f, hsplit, hfront, hf⟩ := split_enabled s hen hreg
  have hres := results_eq s now w r front lastKey f hsplit hf
  have hl : f s.Config (now front.length) w r = last := by
    rw [hres] at hlast
    simpa using hlast
  have hline := line_eq s now w r front lastKey f hsplit hfront hf
  rw [hl] at hline
  simp only [hne, ne_eq, not_false_eq_true, if_true] at hline
  have hfilter : (results s now w r).filter (fun x => x ≠ [])
      = (resultsFrom s.availableFormatters s.Config now w r front 0).filter
          (fun x => x ≠ []) ++ [last] := by
    rw [hres, hl]; simp [List.filter_append, hne]
  unfold LogRequest
  rw [hline, hfilter, ← List.append_assoc, sepCat_append_last]
  simp [hw]

/-- The line written when the last enabled formatter returns the empty string and an
earlier one does not. -/
theorem writes_of_last_empty (s : State) (now : Nat → Time) (w : ResponseWriter)
    (r : Request) (wr : Writer)
    (hreg : allRegistered s) (hw : s.Config.Writer = some wr)
    (hlast : (results s now w r).getLast? = some [])
    (hsome : ∃ x ∈ results s now w r, x ≠ []) :
    LogRequest s now w r =
      { panic := none
        writes := [(wr, s.Config.Separator.intercalate
          ((results s now w r).filter (fun x => x ≠ [])) ++ ['\n'])] } := by
  have hen : s.enabledFormatters ≠ [] := by
    intro h
    simp [results, h, resultsFrom] at hlast
  obtain ⟨front, lastKey, f, hsplit, hfront, hf⟩ := split_enabled s hen hreg
  have hres := results_eq s now w r front lastKey f hsplit hf
  have hl : f s.Config (now front.length) w r = [] := by
    rw [hres] at hlast
    simpa using hlast
  have hline := line_eq s now w r front lastKey f hsplit hfront hf
  rw [hl] at hline
  simp only [ne_eq, not_true_eq_false, if_false] at hline
  have hfilter : (results s now w r).filter (fun x => x ≠ [])
      = (resultsFrom s.availableFormatters s.Config now w r front 0).filter
          (fun x => x ≠ []) := by
    rw [hres, hl]; simp
  obtain ⟨x, hx, hxne⟩ := hsome
  have hmem : x ∈ (results s now w r).filter (fun x => x ≠ []) := by
    simp [List.mem_filter, hx, hxne]
  rw [hfilter] at hmem
  obtain ⟨y, ys, hys⟩ := List.exists_cons_of_ne_nil (List.ne_nil_of_mem hmem)
  unfold LogRequest
  rw [hline, hfilter, hys, sepCat_cons_eq, sliceTo_strip]
  simp [hw]

/-- With every enabled formatter returning the empty string, the strip of the separator
runs on the empty line: it goes out of bounds exactly when the separator is non-empty. -/
theorem line_of_all_empty (s : State) (now : Nat → Time) (w : ResponseWriter)
    (r : Request) (hen : s.enabledFormatters ≠ [])
    (hreg : allRegistered s) (hall : ∀ x ∈ results s now w r, x = []) :
    LogRequest.line s now w r
      = if s.Config.Separator = [] then .ok ['\n'] else .error .sliceBounds := by
  obtain ⟨front, lastKey, f, hsplit, hfront, hf⟩ := split_enabled s hen hreg
  have hres := results_eq s now w r front lastKey f hsplit hf
  have hl : f s.Config (now front.length) w r = [] := hall _ (by rw [hres]; simp)
  have hfilter : (resultsFrom s.availableFormatters s.Config now w r front 0).filter
      (fun x => x ≠ []) = [] := by
    rw [List.filter_eq_nil_iff]
    intro a ha
    have : a = [] := hall a (by rw [hres]; simp [ha])
    simp [this]
  have hline := line_eq s now w r front lastKey f hsplit hfront hf
  rw [hl, hfilter] at hline
  rw [hline]
  by_cases hsep : s.Config.Separator = []
  · simp [hsep, sepCat, sliceTo]
  · simp [hsep, sepCat, sliceTo]

/-- A name without a registered formatter makes `LogRequest` panic before any write. -/
theorem panic_of_unregistered (s : State) (now : Nat → Time) (w : ResponseWriter)
    (r : Request) (hen : s.enabledFormatters ≠ [])
    (hunk : ∃ key ∈ s.enabledFormatters, s.availableFormatters.lookup key = none) :
    LogRequest s now w r = { panic := some .nilFunc, writes := [] } := by
  obtain ⟨front, lastKey, h⟩ := eq_append_last s.enabledFormatters hen
  have hline : LogRequest.line s now w r = .error .nilFunc := by
    unfold LogRequest.line
    simp only [h, sliceTo_front, indexAt_last]
    by_cases hfront : ∃ key ∈ front, s.availableFormatters.lookup key = none
    · simp [loop_unregistered _ _ _ _ _ front 0 [] hfront]
    · have hall : ∀ key ∈ front, (s.availableFormatters.lookup key).isSome = true := by
        intro key hkey
        cases hk : s.availableFormatters.lookup key with
        | none => exact absurd ⟨key, hkey, hk⟩ hfront
        | some f => rfl
      have hlast : s.availableFormatters.lookup lastKey = none := by
        obtain ⟨key, hmem, hnone⟩ := hunk
        rw [h] at hmem
        rcases List.mem_append.mp hmem with hm | hm
        · exact absurd ⟨key, hm, hnone⟩ hfront
        · have : key = lastKey := by simpa using hm
          rw [← this]; exact hnone
      simp [loop_ok _ _ _ _ _ front 0 [] hall, callFormatter, hlast]
  simp [LogRequest, hline]

/-- The line written when every enabled formatter returns a non-empty string. -/
theorem writes_of_all_nonempty (s : State) (now : Nat → Time) (w : ResponseWriter)
    (r : Request) (wr : Writer)
    (hen : s.enabledFormatters ≠ []) (hreg : allRegistered s)
    (hw : s.Config.Writer = some wr)
    (hall : ∀ x ∈ results s now w r, x ≠ []) :
    LogRequest s now w r =
      { panic := none
        writes := [(wr, s.Config.Separator.intercalate (results s now w r) ++ ['\n'])] } := by
  have hlen : (results s now w r).length = s.enabledFormatters.length :=
    resultsFrom_length _ _ _ _ _ _ 0
  have hres : results s now w r ≠ [] := by
    intro h
    rw [h] at hlen
    exact hen (List.length_eq_zero.mp hlen.symm)
  obtain ⟨front, last, hsplit⟩ := eq_append_last _ hres
  have hlast : (results s now w r).getLast? = some last := by rw [hsplit]; simp
  have hne : last ≠ [] := hall last (by rw [hsplit]; simp)
  have hfilter : (results s now w r).filter (fun x => x ≠ []) = results s now w r := by
    rw [List.filter_eq_self]
    intro a ha
    simpa using hall a ha
  have := writes_of_last_nonempty s now w r wr last hreg hw hlast hne
  rw [hfilter] at this
  exact this

/-! ## Lemmas on the rendering of integers -/

theorem digitChar_isDigit (k : Nat) (h : k < 10) : (Nat.digitChar k).isDigit = true := by
  interval_cases k <;> decide

theorem decimalLoop_digits (fuel : Nat) :
    ∀ (u : Nat) (buf : List Char), u ≤ fuel → (∀ c ∈ buf, c.isDigit = true) →
      ∀ c ∈ decimalLoop fuel u buf, c.isDigit = true := by
  induction fuel with
  | zero =>
    intro u buf hu hbuf c hc
    have : u = 0 := Nat.le_zero.mp hu
    subst this
    simp only [decimalLoop, List.mem_cons] at hc
    rcases hc with rfl | hc
    · decide
    · exact hbuf c hc
  | succ fuel ih =>
    intro u buf hu hbuf c hc
    unfold decimalLoop at hc
    split at hc
    · rename_i h10
      refine ih (u / 10) _ (by omega) ?_ c hc
      intro c' hc'
      rcases List.mem_cons.mp hc' with rfl | hc'
      · exact digitChar_isDigit _ (Nat.mod_lt _ (by decide))
      · exact hbuf c' hc'
    · rename_i h10
      rcases List.mem_cons.mp hc with rfl | hc
      · exact digitChar_isDigit _ (by omega)
      · exact hbuf c hc

theorem decimalLoop_ne_nil (fuel : Nat) :
    ∀ (u : Nat) (buf : List Char), decimalLoop fuel u buf ≠ [] := by
  induction fuel with
  | zero => intro u buf; simp [decimalLoop]
  | succ fuel ih =>
    intro u buf
    unfold decimalLoop
    split
    · exact ih _ _
    · simp

theorem decimal_isDigits (n : Nat) : isDigits (decimal n) :=
  ⟨decimalLoop_ne_nil n n [], decimalLoop_digits n n [] (Nat.le_refl n) (by simp)⟩

theorem zeroPad_isDigits (wid n : Nat) : isDigits (zeroPad wid n) := by
  refine ⟨?_, ?_⟩
  · simp [zeroPad, (decimal_isDigits n).1]
  · intro c hc
    rcases List.mem_append.mp hc with h | h
    · rw [List.eq_of_mem_replicate h]; decide
    · exact (decimal_isDigits n).2 c h

/-- A directive `%0<wid>d` prints the value padded with zeros to the width. -/
theorem fmtInteger_zero_width (wid n : Nat) :
    Fmt.fmtInteger { zero := true, widPresent := true, wid := wid } 10 'd' n = zeroPad wid n := by
  have hd : intDigits 10 false n = decimal n := by simp [intDigits]
  simp only [Fmt.fmtInteger, Fmt.pad, zeroPad]
  simp [hd]
  intro _
  omega

/-- A bare directive `%d` prints the decimal digits. -/
theorem fmtInteger_plain (n : Nat) : Fmt.fmtInteger {} 10 'd' n = decimal n := by
  simp [Fmt.fmtInteger, Fmt.pad, intDigits]

/-- What `datetime` returns under the default template: year, month, day in that order,
padded to 2, 2 and 4 digits, then the time of day and the nanoseconds unpadded. -/
theorem datetime_default (cfg : LoggingConfig) (now : Time) (w : ResponseWriter) (r : Request)
    (h : cfg.DateTimeFormat = init.DefaultLoggingConfig.DateTimeFormat) :
    datetime cfg now w r
      = zeroPad 2 now.Year ++ '-' :: (zeroPad 2 now.Month ++ '-' :: (zeroPad 4 now.Day
          ++ ' ' :: (zeroPad 2 now.Hour ++ ':' :: (zeroPad 2 now.Minute
          ++ ':' :: (zeroPad 2 now.Second ++ '.' :: decimal now.Nanosecond))))) := by
  unfold datetime datetimeWith operands
  rw [h, ← fmtInteger_zero_width, ← fmtInteger_zero_width, ← fmtInteger_zero_width,
    ← fmtInteger_zero_width, ← fmtInteger_zero_width, ← fmtInteger_zero_width,
    ← fmtInteger_plain now.Nanosecond]
  simp [init, Sprintf, doPrintf, classify, atWidth, atDot, atVerb, verbStep, printVerb,
    printArg, fmtIntegerVerb, digitVal, extraOf, extraArgs, Arg.val]

/-- The fuel of `decimal` is enough: the digits are those of `Nat.toDigits 10`. -/
theorem decimalLoop_eq_toDigitsCore (fuel : Nat) :
    ∀ (u : Nat) (buf : List Char), u ≤ fuel →
      decimalLoop fuel u buf = Nat.toDigitsCore 10 (fuel + 1) u buf := by
  induction fuel with
  | zero =>
    intro u buf hu
    have : u = 0 := Nat.le_zero.mp hu
    subst this
    simp [decimalLoop, Nat.toDigitsCore]
  | succ fuel ih =>
    intro u buf hu
    unfold decimalLoop
    rw [Nat.toDigitsCore]
    by_cases h10 : 10 ≤ u
    · have hq : u / 10 ≠ 0 := by omega
      simp only [h10, if_true, hq, if_false]
      exact ih _ _ (by omega)
    · have hq : u / 10 = 0 := by omega
      have hm : u % 10 = u := by omega
      simp [h10, hq, hm]

theorem decimal_eq_toDigits (n : Nat) : decimal n = Nat.toDigits 10 n :=
  decimalLoop_eq_toDigitsCore n n [] (Nat.le_refl n)

theorem datetime_default_ne_nil (cfg : LoggingConfig) (now : Time) (w : ResponseWriter)
    (r : Request) (h : cfg.DateTimeFormat = init.DefaultLoggingConfig.DateTimeFormat) :
    datetime cfg now w r ≠ [] := by
  rw [datetime_default cfg now w r h]
  have := (zeroPad_isDigits 2 now.Year).1
  simp [this]

/-! ## Lemmas on directives applied in order -/

theorem digitVal_lt (c : Char) (h : c.isDigit = true) : digitVal c < 10 := by
  simp only [Char.isDigit, Bool.and_eq_true, decide_eq_true_eq] at h
  have h2 : c.val.toNat ≤ 57 := h.2
  unfold digitVal Char.toNat
  have : '0'.val.toNat = 48 := rfl
  omega

theorem doPrintf_text (a : List Arg) (t rest : GoString) (st : PState) (ht : plainText t) :
    doPrintf a (t ++ rest) .text st = t ++ doPrintf a rest .text st := by
  induction t with
  | nil => rfl
  | cons c t ih =>
    have hc : c ≠ '%' := fun h => ht (by rw [h]; exact List.mem_cons_self _ _)
    have ht' : plainText t := fun h => ht (List.mem_cons_of_mem _ h)
    simp [doPrintf, classify, hc, ih ht']

theorem doPrintf_percent (a : List Arg) (cs : GoString) (st : PState) :
    doPrintf a ('%' :: cs) .text st
      = doPrintf a cs .flags (plainState {} st.argNum st.reordered) := by
  simp [doPrintf, classify, plainState]

theorem doPrintf_flags (a : List Arg) (fl rest : GoString) (k : Nat) (ro : Bool)
    (hfl : ∀ c ∈ fl, isFlag c = true) :
    ∀ f : Fmt, doPrintf a (fl ++ rest) .flags (plainState f k ro)
      = doPrintf a rest .flags (plainState (fl.foldl addFlag f) k ro) := by
  induction fl with
  | nil => intro f; rfl
  | cons c fl ih =>
    intro f
    have hc : isFlag c = true := hfl c (List.mem_cons_self _ _)
    have ih' := ih (fun c' hc' => hfl c' (List.mem_cons_of_mem _ hc'))
    have step : doPrintf a (c :: (fl ++ rest)) .flags (plainState f k ro)
        = doPrintf a (fl ++ rest) .flags (plainState (addFlag f c) k ro) := by
      simp only [isFlag, Bool.or_eq_true, beq_iff_eq] at hc
      rcases hc with (((rfl | rfl) | rfl) | rfl) | rfl <;>
        simp [doPrintf, classify, addFlag, plainState]
    rw [List.cons_append, step, ih']
    rfl

/-- A digit other than `0` is no flag, bracket, star or dot. -/
theorem digit_not_special (c : Char) (h : c.isDigit = true) :
    c ≠ '#' ∧ c ≠ '+' ∧ c ≠ '-' ∧ c ≠ ' ' ∧ c ≠ '[' ∧ c ≠ '*' ∧ c ≠ '.' ∧ c ≠ '%' := by
  refine ⟨?_, ?_, ?_, ?_, ?_, ?_, ?_, ?_⟩ <;> (intro hc; rw [hc] at h; revert h; decide)

theorem doPrintf_width_first (a : List Arg) (c : Char) (cs : GoString) (f : Fmt) (k : Nat)
    (ro : Bool) (hc : c.isDigit = true) (h0 : c ≠ '0') :
    doPrintf a (c :: cs) .flags (plainState f k ro)
      = doPrintf a cs .width
          (plainState { f with wid := digitVal c, widPresent := true } k ro) := by
  obtain ⟨h1, h2, h3, h4, h5, h6, _, _⟩ := digit_not_special c hc
  simp [doPrintf, classify, atWidth, plainState, hc, h0, h1, h2, h3, h4, h5, h6]

theorem doPrintf_width (a : List Arg) (ws rest : GoString) (k : Nat) (ro : Bool)
    (hws : ∀ c ∈ ws, c.isDigit = true) :
    ∀ (f : Fmt) (n : Nat), f.wid < 10 ^ n → n + ws.length ≤ 6 →
      doPrintf a (ws ++ rest) .width (plainState f k ro)
        = doPrintf a rest .width (plainState { f with wid := digitsValue ws f.wid } k ro) := by
  induction ws with
  | nil => intro f n _ _; rfl
  | cons c ws ih =>
    intro f n hf hn
    have hc : c.isDigit = true := hws c (List.mem_cons_self _ _)
    have ih' := ih (fun c' hc' => hws c' (List.mem_cons_of_mem _ hc'))
    have hlen : n ≤ 5 := by simp only [List.length_cons] at hn; omega
    have hpow : 10 ^ n ≤ 10 ^ 5 := Nat.pow_le_pow_right (by decide) hlen
    have hsmall : ¬ 1000000 < f.wid := by omega
    have hd := digitVal_lt c hc
    have step : doPrintf a (c :: (ws ++ rest)) .width (plainState f k ro)
        = doPrintf a (ws ++ rest) .width
            (plainState { f with wid := f.wid * 10 + digitVal c } k ro) := by
      simp [doPrintf, classify, plainState, hc, hsmall]
    have hnext : f.wid * 10 + digitVal c < 10 ^ (n + 1) := by
      rw [Nat.pow_succ]; omega
    rw [List.cons_append, step,
      ih' { f with wid := f.wid * 10 + digitVal c } (n + 1) hnext
        (by simp only [List.length_cons] at hn; omega)]
    rfl

theorem doPrintf_prec (a : List Arg) (ps rest : GoString) (k : Nat) (ro : Bool)
    (hps : ∀ c ∈ ps, c.isDigit = true) :
    ∀ (f : Fmt) (n : Nat), f.prec < 10 ^ n → n + ps.length ≤ 6 →
      doPrintf a (ps ++ rest) .prec (plainState f k ro)
        = doPrintf a rest .prec (plainState { f with prec := digitsValue ps f.prec } k ro) := by
  induction ps with
  | nil => intro f n _ _; rfl
  | cons c ps ih =>
    intro f n hf hn
    have hc : c.isDigit = true := hps c (List.mem_cons_self _ _)
    have ih' := ih (fun c' hc' => hps c' (List.mem_cons_of_mem _ hc'))
    have hlen : n ≤ 5 := by simp only [List.length_cons] at hn; omega
    have hpow : 10 ^ n ≤ 10 ^ 5 := Nat.pow_le_pow_right (by decide) hlen
    have hsmall : ¬ 1000000 < f.prec := by omega
    have hd := digitVal_lt c hc
    have step : doPrintf a (c :: (ps ++ rest)) .prec (plainState f k ro)
        = doPrintf a (ps ++ rest) .prec
            (plainState { f with prec := f.prec * 10 + digitVal c } k ro) := by
      simp [doPrintf, classify, plainState, hc, hsmall]
    have hnext : f.prec * 10 + digitVal c < 10 ^ (n + 1) := by
      rw [Nat.pow_succ]; omega
    rw [List.cons_append, step,
      ih' { f with prec := f.prec * 10 + digitVal c } (n + 1) hnext
        (by simp only [List.length_cons] at hn; omega)]
    rfl

/-- The `.` that opens a precision, met after the flags or after the width. -/
theorem doPrintf_dot (a : List Arg) (cs : GoString) (f : Fmt) (k : Nat) (ro : Bool)
    (ph : Phase) (hph : ph = .flags ∨ ph = .width) (hcs : cs ≠ []) :
    doPrintf a ('.' :: cs) ph (plainState f k ro)
      = doPrintf a cs .precStart (plainState f k ro) := by
  rcases hph with rfl | rfl <;>
    simp [doPrintf, classify, atWidth, atDot, plainState, hcs]

theorem doPrintf_prec_first (a : List Arg) (c : Char) (cs : GoString) (f : Fmt) (k : Nat)
    (ro : Bool) (hc : c.isDigit = true) :
    doPrintf a (c :: cs) .precStart (plainState f k ro)
      = doPrintf a cs .prec
          (plainState { f with prec := digitVal c, precPresent := true } k ro) := by
  obtain ⟨_, _, _, _, h5, h6, _, _⟩ := digit_not_special c hc
  simp [doPrintf, classify, atPrecision, plainState, hc, h5, h6]

/-- The verb `d`, `v` or `s`, met after the flags, the width or the digits of the
precision: the current operand is printed and the next one becomes current. -/
theorem doPrintf_verb (a : List Arg) (v : Char) (cs : GoString) (f : Fmt) (k : Nat)
    (ro : Bool) (x : Arg) (ph : Phase) (hph : ph = .flags ∨ ph = .width ∨ ph = .prec)
    (hv : v = 'd' ∨ v = 'v' ∨ v = 's') (hx : a.get? k = some x) :
    doPrintf a (v :: cs) ph (plainState f k ro)
      = printVerb f v x ++ doPrintf a cs .text (plainState f (k + 1) ro) := by
  have hx' : a[k]? = some x := by simpa using hx
  rcases hv with rfl | rfl | rfl <;> rcases hph with rfl | rfl | rfl <;>
    simp [doPrintf, classify, atWidth, atDot, atVerb, verbStep, plainState, hx']

/-- The verb met right after the `.`: the precision is zero. -/
theorem doPrintf_verb_dot (a : List Arg) (v : Char) (cs : GoString) (f : Fmt) (k : Nat)
    (ro : Bool) (x : Arg) (hv : v = 'd' ∨ v = 'v' ∨ v = 's') (hx : a.get? k = some x) :
    doPrintf a (v :: cs) .precStart (plainState f k ro)
      = printVerb { f with prec := 0, precPresent := true } v x
          ++ doPrintf a cs .text
              (plainState { f with prec := 0, precPresent := true } (k + 1) ro) := by
  have hx' : a[k]? = some x := by simpa using hx
  rcases hv with rfl | rfl | rfl <;>
    simp [doPrintf, classify, atPrecision, atVerb, verbStep, plainState, hx']

/-- The end of a directive, from the `.` of the precision, if any, to the verb. -/
theorem doPrintf_tail (a : List Arg) (prec : Option (List Char)) (v : Char) (rest : GoString)
    (f : Fmt) (k : Nat) (ro : Bool) (x : Arg) (ph : Phase) (hph : ph = .flags ∨ ph = .width)
    (hp : ∀ p, prec = some p → (∀ c ∈ p, c.isDigit = true) ∧ p.length ≤ 6)
    (hv : v = 'd' ∨ v = 'v' ∨ v = 's') (hx : a.get? k = some x) :
    doPrintf a (precText prec ++ (v :: rest)) ph (plainState f k ro)
      = printVerb (withPrec f prec) v x
        ++ doPrintf a rest .text (plainState (withPrec f prec) (k + 1) ro) := by
  cases prec with
  | none =>
    have hph' : ph = .flags ∨ ph = .width ∨ ph = .prec := by
      rcases hph with h | h
      · exact Or.inl h
      · exact Or.inr (Or.inl h)
    exact doPrintf_verb a v rest f k ro x ph hph' hv hx
  | some p =>
    obtain ⟨hdig, hlen⟩ := hp p rfl
    show doPrintf a ('.' :: (p ++ (v :: rest))) ph (plainState f k ro) = _
    rw [doPrintf_dot a _ f k ro ph hph (by simp)]
    cases p with
    | nil =>
      have := doPrintf_verb_dot a v rest f k ro x hv hx
      simpa [withPrec, digitsValue] using this
    | cons c ps =>
      have hc : c.isDigit = true := hdig c (List.mem_cons_self _ _)
      have hps : ∀ c' ∈ ps, c'.isDigit = true := fun c' h => hdig c' (List.mem_cons_of_mem _ h)
      have h1 := doPrintf_prec_first a c (ps ++ (v :: rest)) f k ro hc
      have h2 := doPrintf_prec a ps (v :: rest) k ro hps
        { f with prec := digitVal c, precPresent := true } 1 (by simpa using digitVal_lt c hc)
        (by simp only [List.length_cons] at hlen; omega)
      have h3 := doPrintf_verb a v rest
        { f with prec := digitsValue ps (digitVal c), precPresent := true } k ro x .prec
        (Or.inr (Or.inr rfl)) hv hx
      have hval : digitsValue (c :: ps) 0 = digitsValue ps (digitVal c) := by
        simp [digitsValue]
      rw [List.cons_append, h1, h2]
      simp only [withPrec, hval]
      exact h3

/-- A directive in front of the text `rest`, with an operand left: it prints that
operand, and the next operand becomes current. -/
theorem doPrintf_directive (a : List Arg) (d : Directive) (rest : GoString) (st : PState)
    (x : Arg) (hd : d.wellFormed) (hx : a.get? st.argNum = some x) :
    doPrintf a (d.text ++ rest) .text st
      = d.render x ++ doPrintf a rest .text (plainState d.fmt (st.argNum + 1) st.reordered) := by
  obtain ⟨hfl, hw, hw0, hwl, hp, hv⟩ := hd
  have htxt : d.text ++ rest
      = '%' :: (d.flags ++ (d.width ++ (precText d.prec ++ (d.verb :: rest)))) := by
    simp [Directive.text]
  rw [htxt, doPrintf_percent, doPrintf_flags a d.flags _ _ _ hfl]
  unfold Directive.render Directive.fmt
  cases hwd : d.width with
  | nil =>
    rw [List.nil_append]
    have := doPrintf_tail a d.prec d.verb rest (d.flags.foldl addFlag {}) st.argNum
      st.reordered x .flags (Or.inl rfl) hp hv hx
    simpa [withWidth] using this
  | cons c ws =>
    rw [hwd] at hw hw0 hwl
    have hc : c.isDigit = true := hw c (List.mem_cons_self _ _)
    have hws : ∀ c' ∈ ws, c'.isDigit = true := fun c' h => hw c' (List.mem_cons_of_mem _ h)
    have h0 : c ≠ '0' := by
      intro h
      exact hw0 (by rw [h]; rfl)
    have h1 := doPrintf_width_first a c (ws ++ (precText d.prec ++ (d.verb :: rest)))
      (d.flags.foldl addFlag {}) st.argNum st.reordered hc h0
    have h2 := doPrintf_width a ws (precText d.prec ++ (d.verb :: rest)) st.argNum
      st.reordered hws
      { d.flags.foldl addFlag {} with wid := digitVal c, widPresent := true } 1
      (by simpa using digitVal_lt c hc) (by simp only [List.length_cons] at hwl; omega)
    have h3 := doPrintf_tail a d.prec d.verb rest
      { d.flags.foldl addFlag {} with
        wid := digitsValue ws (digitVal c), widPresent := true } st.argNum st.reordered x
      .width (Or.inr rfl) hp hv hx
    have hval : digitsValue (c :: ws) 0 = digitsValue ws (digitVal c) := by
      simp [digitsValue]
    rw [List.cons_append, h1, h2]
    simp only [withWidth, hval, if_false, reduceCtorEq]
    exact h3

/-- A template of directives and plain text, with an operand for every directive: the
directives print the operands in order, and the operands left over are reported. -/
theorem doPrintf_template (a : List Arg) (ds : List (Directive × GoString)) :
    ∀ (t₀ : GoString) (st : PState), plainText t₀ →
      (∀ p ∈ ds, p.1.wellFormed ∧ plainText p.2) → st.reordered = false →
      st.argNum + ds.length ≤ a.length →
      doPrintf a (template t₀ ds) .text st
        = renderInOrder t₀ ds (a.drop st.argNum)
            ++ extraArgs (a.drop (st.argNum + ds.length)) := by
  induction ds with
  | nil =>
    intro t₀ st ht _ hro _
    have := doPrintf_text a t₀ [] st ht
    simp only [List.append_nil] at this
    simp [template, renderInOrder, this, doPrintf, extraOf, hro]
  | cons p ds ih =>
    intro t₀ st ht hds hro hlen
    obtain ⟨hwf, hpt⟩ := hds p (List.mem_cons_self _ _)
    have hlt : st.argNum < a.length := by simp only [List.length_cons] at hlen; omega
    have hx : a.get? st.argNum = some (a.get ⟨st.argNum, hlt⟩) := List.get?_eq_get hlt
    have htem : template t₀ (p :: ds) = t₀ ++ (p.1.text ++ template p.2 ds) := by
      simp [template]
    have hdrop : a.drop st.argNum = a.get ⟨st.argNum, hlt⟩ :: a.drop (st.argNum + 1) := by
      simp
    have hR : renderInOrder t₀ (p :: ds) (a.drop st.argNum)
        = t₀ ++ (p.1.render (a.get ⟨st.argNum, hlt⟩)
            ++ renderInOrder p.2 ds (a.drop (st.argNum + 1))) := by
      rw [hdrop]
      simp only [renderInOrder, List.zipWith_cons_cons, List.flatten_cons, List.append_assoc]
    have hk : st.argNum + (p :: ds).length = st.argNum + 1 + ds.length := by
      simp only [List.length_cons]; omega
    rw [htem, doPrintf_text a t₀ _ st ht, doPrintf_directive a p.1 _ st _ hwf hx,
      ih p.2 (plainState p.1.fmt (st.argNum + 1) st.reordered) hpt
        (fun q hq => hds q (List.mem_cons_of_mem _ hq)) hro
        (by simp only [plainState, List.length_cons] at hlen ⊢; omega), hR, hk]
    simp only [plainState, List.append_assoc]

/-! ## Properties of `LogRequest` -/

/-- C1: with at least one enabled name, every name registered, a sink configured and every
formatter returning a non-empty string, `LogRequest` makes one write whose bytes are the
results in the configured order joined by `Config.Separator`, then a single newline. -/
theorem LogRequest_all_nonempty (s : State) (now : Nat → Time) (w : ResponseWriter)
    (r : Request) (wr : Writer)
    (hen : s.enabledFormatters ≠ []) (hreg : allRegistered s)
    (hw : s.Config.Writer = some wr)
    (hall : ∀ x ∈ results s now w r, x ≠ []) :
    LogRequest s now w r =
      { panic := none
        writes := [(wr, s.Config.Separator.intercalate (results s now w r) ++ ['\n'])] } :=
  writes_of_all_nonempty s now w r wr hen hreg hw hall

/-- C1, on `method` and `endpoint` enabled with the default configuration: the line is
`GET - /test` and a newline. -/
theorem LogRequest_all_nonempty_witness :
    (defaultLogger ["method".toList, "endpoint".toList]).enabledFormatters ≠ []
      ∧ allRegistered (defaultLogger ["method".toList, "endpoint".toList])
      ∧ (defaultLogger ["method".toList, "endpoint".toList]).Config.Writer = some osStdout
      ∧ (∀ x ∈ results (defaultLogger ["method".toList, "endpoint".toList]) testClock
            testRecorder testRequest, x ≠ [])
      ∧ LogRequest (defaultLogger ["method".toList, "endpoint".toList]) testClock
            testRecorder testRequest
          = { panic := none, writes := [(osStdout, "GET - /test\n".toList)] } :=
  ⟨by decide, by unfold allRegistered; decide, rfl, by decide,
    (LogRequest_all_nonempty (defaultLogger ["method".toList, "endpoint".toList]) testClock
      testRecorder testRequest osStdout (by decide) (by unfold allRegistered; decide) rfl
      (by decide)).trans (by decide)⟩

/-- C2: when the last enabled formatter returns the empty string and an earlier one does
not, `LogRequest` writes the non-empty results joined by the separator and one newline;
the newline directly follows the last non-empty result, with no separator in between. -/
theorem LogRequest_last_empty (s : State) (now : Nat → Time) (w : ResponseWriter)
    (r : Request) (wr : Writer)
    (hreg : allRegistered s) (hw : s.Config.Writer = some wr)
    (hlast : (results s now w r).getLast? = some [])
    (hsome : ∃ x ∈ results s now w r, x ≠ []) :
    LogRequest s now w r =
        { panic := none
          writes := [(wr, s.Config.Separator.intercalate
            ((results s now w r).filter (fun x => x ≠ [])) ++ ['\n'])] }
      ∧ ∃ pre x, ((results s now w r).filter (fun x => x ≠ [])).getLast? = some x
          ∧ LogRequest s now w r = { panic := none, writes := [(wr, pre ++ x ++ ['\n'])] } := by
  have hmain := writes_of_last_empty s now w r wr hreg hw hlast hsome
  refine ⟨hmain, ?_⟩
  obtain ⟨x, hx, hxne⟩ := hsome
  have hmem : x ∈ (results s now w r).filter (fun x => x ≠ []) := by
    simp [List.mem_filter, hx, hxne]
  obtain ⟨ys, y, hys⟩ := eq_append_last _ (List.ne_nil_of_mem hmem)
  refine ⟨sepCat s.Config.Separator ys, y, by rw [hys]; simp, ?_⟩
  rw [hmain, hys, sepCat_append_last]

/-- C2, on the spec's example: `method` and `identifier` enabled, a `GET` request without
an `id` parameter; the line is exactly `GET` and a newline. -/
theorem LogRequest_last_empty_witness :
    LogRequest (defaultLogger ["method".toList, "identifier".toList]) testClock
        testRecorder plainRequest
      = { panic := none, writes := [(osStdout, "GET\n".toList)] } :=
  (LogRequest_last_empty (defaultLogger ["method".toList, "identifier".toList]) testClock
    testRecorder plainRequest osStdout (by unfold allRegistered; decide) rfl (by decide)
    ⟨"GET".toList, by decide, by decide⟩).1.trans (by decide)

/-- C3: with only `identifier` enabled, the default separator and a request without an
`id` parameter, every formatter returns the empty string and `LogRequest` panics on the
slice `msg[:len(msg)-len(Config.Separator)]` (bounds `[:-3]`) without writing a newline. -/
theorem LogRequest_all_empty_panics :
    results (defaultLogger ["identifier".toList]) testClock testRecorder plainRequest = [[]]
      ∧ LogRequest (defaultLogger ["identifier".toList]) testClock testRecorder plainRequest
        = { panic := some .sliceBounds, writes := [] } := by
  decide

/-- C4: when the last enabled formatter returns a non-empty string, `LogRequest` writes the
non-empty results in the configured order joined by the separator, then a newline; an
earlier formatter that returns the empty string leaves neither a field nor a separator. -/
theorem LogRequest_skips_empty (s : State) (now : Nat → Time) (w : ResponseWriter)
    (r : Request) (wr : Writer) (last : GoString)
    (hreg : allRegistered s) (hw : s.Config.Writer = some wr)
    (hlast : (results s now w r).getLast? = some last) (hne : last ≠ []) :
    LogRequest s now w r =
      { panic := none
        writes := [(wr, s.Config.Separator.intercalate
          ((results s now w r).filter (fun x => x ≠ [])) ++ ['\n'])] } :=
  writes_of_last_nonempty s now w r wr last hreg hw hlast hne

/-- C4, on `method`, `identifier`, `endpoint` enabled and a request without an `id`
parameter: the line is `GET - /test` and a newline. -/
theorem LogRequest_skips_empty_witness :
    LogRequest (defaultLogger ["method".toList, "identifier".toList, "endpoint".toList])
        testClock testRecorder plainRequest
      = { panic := none, writes := [(osStdout, "GET - /test\n".toList)] } :=
  (LogRequest_skips_empty
    (defaultLogger ["method".toList, "identifier".toList, "endpoint".toList]) testClock
    testRecorder plainRequest osStdout "/test".toList (by unfold allRegistered; decide) rfl
    (by decide) (by decide)).trans (by decide)

/-! ## Properties of `datetime` -/

/-- C5: with the default template and separator, a sink configured and the four built-in
formatters enabled in the order datetime, method, endpoint, identifier, a request with a
non-empty method, path and `id` value is logged as `D-D-D D:D:D.D - method - path - id`
and a newline, each `D` a non-empty run of decimal digits. -/
theorem LogRequest_default_line (s : State) (wr : Writer) (now : Nat → Time)
    (w : ResponseWriter) (r : Request)
    (hreg : s.availableFormatters = init.availableFormatters)
    (hm : r.Method ≠ []) (hp : r.Path ≠ []) (hi : valuesGet r.Query "id".toList ≠ []) :
    ∃ d₁ d₂ d₃ d₄ d₅ d₆ d₇ : GoString,
      isDigits d₁ ∧ isDigits d₂ ∧ isDigits d₃ ∧ isDigits d₄ ∧ isDigits d₅ ∧ isDigits d₆
        ∧ isDigits d₇
        ∧ LogRequest
            (InitializeLogger s { init.DefaultLoggingConfig with Writer := some wr } allFour).1
            now w r
          = { panic := none
              writes := [(wr, d₁ ++ "-".toList ++ d₂ ++ "-".toList ++ d₃ ++ " ".toList ++ d₄
                ++ ":".toList ++ d₅ ++ ":".toList ++ d₆ ++ ".".toList ++ d₇ ++ " - ".toList
                ++ r.Method ++ " - ".toList ++ r.Path ++ " - ".toList
                ++ valuesGet r.Query "id".toList ++ "\n".toList)] } := by
  refine ⟨zeroPad 2 (now 0).Year, zeroPad 2 (now 0).Month, zeroPad 4 (now 0).Day,
    zeroPad 2 (now 0).Hour, zeroPad 2 (now 0).Minute, zeroPad 2 (now 0).Second,
    decimal (now 0).Nanosecond, zeroPad_isDigits _ _, zeroPad_isDigits _ _,
    zeroPad_isDigits _ _, zeroPad_isDigits _ _, zeroPad_isDigits _ _, zeroPad_isDigits _ _,
    decimal_isDigits _, ?_⟩
  generalize hst :
    (InitializeLogger s { init.DefaultLoggingConfig with Writer := some wr } allFour).1 = st
  have hcfg : st.Config = { init.DefaultLoggingConfig with Writer := some wr } := by
    rw [← hst]; rfl
  have hfmt : st.Config.DateTimeFormat = init.DefaultLoggingConfig.DateTimeFormat := by
    rw [hcfg]
  have hres : results st now w r
      = [datetime st.Config (now 0) w r, r.Method, r.Path, valuesGet r.Query "id".toList] := by
    rw [← hst]
    show resultsFrom s.availableFormatters _ now w r allFour 0 = _
    rw [hreg]
    rfl
  have hallreg : allRegistered st := by
    rw [← hst]
    show ∀ key ∈ allFour, (s.availableFormatters.lookup key).isSome = true
    rw [hreg]
    decide
  have hdt := datetime_default_ne_nil st.Config (now 0) w r hfmt
  have hall : ∀ x ∈ results st now w r, x ≠ [] := by
    intro x hx
    rw [hres] at hx
    simp only [List.mem_cons, List.mem_singleton, List.not_mem_nil, or_false] at hx
    rcases hx with rfl | rfl | rfl | rfl <;> assumption
  have hline := writes_of_all_nonempty st now w r wr (by rw [← hst]; exact List.cons_ne_nil _ _) hallreg
    (by rw [hcfg]) hall
  rw [hline, hres]
  have hsep : st.Config.Separator = " - ".toList := by rw [hcfg]; rfl
  simp only [hsep]
  simp [List.intercalate, datetime_default _ _ _ _ hfmt]

/-- C5, on the request of `TestLogger` and a clock reading 2018-07-04 09:05:03.000000123:
the line is `2018-07-0004 09:05:03.123 - GET - /test - testid` and a newline. -/
theorem LogRequest_default_line_witness :
    (∃ d₁ d₂ d₃ d₄ d₅ d₆ d₇ : GoString,
      isDigits d₁ ∧ isDigits d₂ ∧ isDigits d₃ ∧ isDigits d₄ ∧ isDigits d₅ ∧ isDigits d₆
        ∧ isDigits d₇
        ∧ LogRequest
            (InitializeLogger init { init.DefaultLoggingConfig with Writer := some osStdout }
              allFour).1 testClock testRecorder testRequest
          = { panic := none
              writes := [(osStdout, d₁ ++ "-".toList ++ d₂ ++ "-".toList ++ d₃ ++ " ".toList
                ++ d₄ ++ ":".toList ++ d₅ ++ ":".toList ++ d₆ ++ ".".toList ++ d₇
                ++ " - ".toList ++ testRequest.Method ++ " - ".toList ++ testRequest.Path
                ++ " - ".toList ++ valuesGet testRequest.Query "id".toList ++ "\n".toList)] })
      ∧ LogRequest
          (InitializeLogger init { init.DefaultLoggingConfig with Writer := some osStdout }
            allFour).1 testClock testRecorder testRequest
        = { panic := none
            writes := [(osStdout,
              "2018-07-0004 09:05:03.123 - GET - /test - testid\n".toList)] } :=
  ⟨LogRequest_default_line init osStdout testClock testRecorder testRequest rfl (by decide)
    (by decide) (by decide), by decide⟩

/-- C6: under the default template a clock reading 2018-07-04 09:05:03.000000123 is
rendered `2018-07-0004 09:05:03.123`, the year first and the day on four digits, where
the `MM-DD-YYYY` layout gives `07-04-2018 09:05:03.123`. -/
theorem datetime_default_not_month_first :
    datetime init.DefaultLoggingConfig (testClock 0) testRecorder testRequest
        = "2018-07-0004 09:05:03.123".toList
      ∧ datetimeSpec (testClock 0) = "07-04-2018 09:05:03.123".toList
      ∧ datetime init.DefaultLoggingConfig (testClock 0) testRecorder testRequest
        ≠ datetimeSpec (testClock 0) := by
  decide

/-- C7: for every template and every clock reading, `datetime` returns what the library
function returns for the template and the seven operands year, month, day, hour, minute,
second, nanosecond, in that order, whatever the request and the response are, and this
for any library function in the place of `fmt.Sprintf`; here the month is a `time.Month`
and the six others are `int`.  With `fmt.Sprintf`, on every template made of plain text
and up to seven directives of flags, width, precision and verb `d`, `v` or `s`, the
first directive prints the year, the second the month, and so on in the order of the
operands, and the operands no directive takes are reported after the text. -/
theorem datetime_positional (cfg : LoggingConfig) (now : Time) (w w' : ResponseWriter)
    (r r' : Request) :
    (∀ sprintf : GoString → List Arg → GoString,
        datetimeWith sprintf cfg now w r
            = sprintf cfg.DateTimeFormat
                [.int now.Year, .month now.Month, .int now.Day, .int now.Hour,
                 .int now.Minute, .int now.Second, .int now.Nanosecond]
          ∧ datetimeWith sprintf cfg now w r = datetimeWith sprintf cfg now w' r')
      ∧ datetime cfg now w r
          = Sprintf cfg.DateTimeFormat
              [.int now.Year, .month now.Month, .int now.Day, .int now.Hour, .int now.Minute,
               .int now.Second, .int now.Nanosecond]
      ∧ datetime cfg now w r = datetime cfg now w' r'
      ∧ (∀ (t₀ : GoString) (ds : List (Directive × GoString)),
          plainText t₀ → (∀ p ∈ ds, p.1.wellFormed ∧ plainText p.2) → ds.length ≤ 7 →
          cfg.DateTimeFormat = template t₀ ds →
          datetime cfg now w r
            = renderInOrder t₀ ds
                [.int now.Year, .month now.Month, .int now.Day, .int now.Hour,
                 .int now.Minute, .int now.Second, .int now.Nanosecond]
              ++ extraArgs
                  ([Arg.int now.Year, .month now.Month, .int now.Day, .int now.Hour,
                    .int now.Minute, .int now.Second, .int now.Nanosecond].drop ds.length)) := by
  refine ⟨fun _ => ⟨rfl, rfl⟩, rfl, rfl, ?_⟩
  intro t₀ ds ht hds hlen htem
  have h := doPrintf_template (operands now) ds t₀ {} ht hds rfl
    (by simpa [operands] using hlen)
  show Sprintf cfg.DateTimeFormat (operands now) = _
  rw [htem]
  unfold Sprintf
  rw [h]
  simp [operands]

/-- C7, on the default template, cut into its seven directives, and on a template of
seven `%v`, at a clock reading 2018-07-04 09:05:03.000000123. -/
theorem datetime_positional_witness :
    plainText []
      ∧ (∀ p ∈ defaultPieces, p.1.wellFormed ∧ plainText p.2)
      ∧ defaultPieces.length = 7
      ∧ init.DefaultLoggingConfig.DateTimeFormat = template [] defaultPieces
      ∧ datetime init.DefaultLoggingConfig (testClock 0) testRecorder testRequest
          = renderInOrder [] defaultPieces
              [.int 2018, .month 7, .int 4, .int 9, .int 5, .int 3, .int 123]
      ∧ renderInOrder [] defaultPieces
            [.int 2018, .month 7, .int 4, .int 9, .int 5, .int 3, .int 123]
          = "2018-07-0004 09:05:03.123".toList
      ∧ datetime { init.DefaultLoggingConfig with DateTimeFormat := "%v %v %v %v %v %v %v".toList }
            (testClock 0) testRecorder testRequest
          = "2018 July 4 9 5 3 123".toList := by
  have hwf : ∀ p ∈ defaultPieces, p.1.wellFormed ∧ plainText p.2 := by
    intro p hp
    simp only [defaultPieces, List.mem_cons, List.mem_singleton, List.not_mem_nil,
      or_false] at hp
    rcases hp with rfl | rfl | rfl | rfl | rfl | rfl | rfl <;>
      (refine ⟨⟨by decide, by decide, by decide, by decide, ?_, by decide⟩,
         by unfold plainText; decide⟩
       intro p hp
       cases hp)
  have hplain : plainText [] := by unfold plainText; decide
  exact ⟨hplain, hwf, rfl, by decide,
    ((datetime_positional init.DefaultLoggingConfig (testClock 0) testRecorder testRecorder
      testRequest testRequest).2.2.2 [] defaultPieces hplain hwf (by decide)
      (by decide)).trans (by decide),
    by decide, by decide⟩

/-! ## Unknown names and `InitializeLogger` -/

/-- C8: with at least one enabled name and some enabled name absent from the registry,
`LogRequest` panics on the call of the nil function and makes no write. -/
theorem LogRequest_unknown_name (s : State) (now : Nat → Time) (w : ResponseWriter)
    (r : Request) (hen : s.enabledFormatters ≠ [])
    (hunk : ∃ key ∈ s.enabledFormatters, s.availableFormatters.lookup key = none) :
    LogRequest s now w r = { panic := some .nilFunc, writes := [] } :=
  panic_of_unregistered s now w r hen hunk

/-- C8, on `method`, `bogus`, `endpoint` enabled. -/
theorem LogRequest_unknown_name_witness :
    (defaultLogger ["method".toList, "bogus".toList, "endpoint".toList]).enabledFormatters ≠ []
      ∧ (∃ key ∈ (defaultLogger
            ["method".toList, "bogus".toList, "endpoint".toList]).enabledFormatters,
          (defaultLogger ["method".toList, "bogus".toList,
            "endpoint".toList]).availableFormatters.lookup key = none)
      ∧ LogRequest (defaultLogger ["method".toList, "bogus".toList, "endpoint".toList])
          testClock testRecorder testRequest = { panic := some .nilFunc, writes := [] } :=
  ⟨by decide, ⟨"bogus".toList, by decide, rfl⟩,
    LogRequest_unknown_name _ testClock testRecorder testRequest (by decide)
      ⟨"bogus".toList, by decide, rfl⟩⟩

/-- C9: `InitializeLogger(c, names...)` returns no error and leaves `Config = c` and the
enabled sequence `names`, the registry and the default configuration untouched, whatever
the state before; so a second call overrides the first, both in the state and in what
`LogRequest` then does, and repeating a call changes nothing. -/
theorem InitializeLogger_last_call_wins (s : State) (c₁ c₂ : LoggingConfig)
    (names₁ names₂ : List GoString) (now : Nat → Time) (w : ResponseWriter) (r : Request) :
    (InitializeLogger s c₂ names₂).1.Config = c₂
      ∧ (InitializeLogger s c₂ names₂).1.enabledFormatters = names₂
      ∧ (InitializeLogger s c₂ names₂).1.availableFormatters = s.availableFormatters
      ∧ (InitializeLogger s c₂ names₂).1.DefaultLoggingConfig = s.DefaultLoggingConfig
      ∧ InitializeLogger (InitializeLogger s c₁ names₁).1 c₂ names₂
          = InitializeLogger s c₂ names₂
      ∧ LogRequest (InitializeLogger (InitializeLogger s c₁ names₁).1 c₂ names₂).1 now w r
          = LogRequest (InitializeLogger s c₂ names₂).1 now w r
      ∧ InitializeLogger (InitializeLogger s c₂ names₂).1 c₂ names₂
          = InitializeLogger s c₂ names₂ :=
  ⟨rfl, rfl, rfl, rfl, rfl, rfl, rfl⟩

/-- C10: `InitializeLogger` returns no error for every configuration and every sequence of
names; when one of the names is not in the registry, the failure comes from `LogRequest`,
which then panics on every call and writes nothing. -/
theorem InitializeLogger_no_validation (s : State) (c : LoggingConfig)
    (names : List GoString) :
    (InitializeLogger s c names).2 = none
      ∧ ((∃ key ∈ names, s.availableFormatters.lookup key = none) →
          ∀ (now : Nat → Time) (w : ResponseWriter) (r : Request),
            LogRequest (InitializeLogger s c names).1 now w r
              = { panic := some .nilFunc, writes := [] }) := by
  refine ⟨rfl, ?_⟩
  intro hunk now w r
  have hen : (InitializeLogger s c names).1.enabledFormatters ≠ [] := by
    obtain ⟨key, hmem, _⟩ := hunk
    exact List.ne_nil_of_mem hmem
  exact panic_of_unregistered _ now w r hen hunk

/-- C10, on `InitializeLogger(DefaultLoggingConfig, "datetime", "nosuch")`. -/
theorem InitializeLogger_no_validation_witness :
    (InitializeLogger init init.DefaultLoggingConfig
        ["datetime".toList, "nosuch".toList]).2 = none
      ∧ (∃ key ∈ ["datetime".toList, "nosuch".toList],
          init.availableFormatters.lookup key = none)
      ∧ LogRequest (InitializeLogger init init.DefaultLoggingConfig
          ["datetime".toList, "nosuch".toList]).1 testClock testRecorder testRequest
          = { panic := some .nilFunc, writes := [] } :=
  ⟨(InitializeLogger_no_validation init init.DefaultLoggingConfig
      ["datetime".toList, "nosuch".toList]).1,
    ⟨"nosuch".toList, by decide, rfl⟩,
    (InitializeLogger_no_validation init init.DefaultLoggingConfig
      ["datetime".toList, "nosuch".toList]).2 ⟨"nosuch".toList, by decide, rfl⟩
      testClock testRecorder testRequest⟩

/-! ## The single write of `LogRequest` -/

/-- Every line `LogRequest` assembles ends with the newline. -/
theorem line_ends_newline (s : State) (now : Nat → Time) (w : ResponseWriter) (r : Request)
    (msg : GoString) (h : LogRequest.line s now w r = .ok msg) :
    ∃ body, msg = body ++ ['\n'] := by
  unfold LogRequest.line at h
  simp only at h
  split at h
  · cases h
  · split at h
    · cases h
    · split at h
      · cases h
      · split at h
        · cases h
        · split at h
          · injection h with h
            rw [← h, ← List.append_assoc]
            exact ⟨_, rfl⟩
          · split at h
            · cases h
            · injection h with h
              exact ⟨_, h.symm⟩

/-- C11: a call of `LogRequest` that does not panic makes exactly one `Write`, on the
configured sink, and passes it the whole assembled line, which ends with the newline. -/
theorem LogRequest_single_write (s : State) (now : Nat → Time) (w : ResponseWriter)
    (r : Request) (h : (LogRequest s now w r).panic = none) :
    ∃ wr body, s.Config.Writer = some wr
      ∧ LogRequest.line s now w r = .ok (body ++ ['\n'])
      ∧ (LogRequest s now w r).writes = [(wr, body ++ ['\n'])] := by
  unfold LogRequest at h ⊢
  cases hline : LogRequest.line s now w r with
  | error p => rw [hline] at h; simp at h
  | ok msg =>
    obtain ⟨body, hbody⟩ := line_ends_newline s now w r msg hline
    cases hw : s.Config.Writer with
    | none => rw [hline, hw] at h; simp at h
    | some wr => exact ⟨wr, body, rfl, by rw [hbody], by simp [hbody]⟩

/-- C11, on `method` and `endpoint` enabled with the default configuration. -/
theorem LogRequest_single_write_witness :
    (LogRequest (defaultLogger ["method".toList, "endpoint".toList]) testClock testRecorder
        testRequest).panic = none
      ∧ ∃ wr body, (defaultLogger ["method".toList, "endpoint".toList]).Config.Writer = some wr
        ∧ LogRequest.line (defaultLogger ["method".toList, "endpoint".toList]) testClock
            testRecorder testRequest = .ok (body ++ ['\n'])
        ∧ (LogRequest (defaultLogger ["method".toList, "endpoint".toList]) testClock
            testRecorder testRequest).writes = [(wr, body ++ ['\n'])] :=
  ⟨by decide, LogRequest_single_write _ testClock testRecorder testRequest (by decide)⟩

/-! ## The listings of the registry -/

theorem listLoop_eq (keys : List GoString) :
    ∀ out : GoString,
      ListAvailableFormatters.loop keys out = out ++ sepCat " ".toList keys := by
  induction keys with
  | nil => intro out; simp [ListAvailableFormatters.loop, sepCat]
  | cons k ks ih =>
    intro out
    simp [ListAvailableFormatters.loop, ih, sepCat]

theorem prettyLoop_eq (keys : List GoString) :
    ∀ out : GoString,
      PrettyListAvailableFormatters.loop keys out
        = out ++ (keys.map fun k => "  ".toList ++ k ++ ",\n".toList).flatten := by
  induction keys with
  | nil => intro out; simp [PrettyListAvailableFormatters.loop]
  | cons k ks ih =>
    intro out
    simp [PrettyListAvailableFormatters.loop, ih]

/-- The keys of the registry built by `init`. -/
theorem init_keys :
    init.availableFormatters.keys
      = ["identifier".toList, "endpoint".toList, "method".toList, "datetime".toList] := by
  decide

/-- Any order of the `range` over the startup registry is a permutation of the four
built-in names. -/
theorem startup_order (s : State) (rangeOrder : List GoString → List GoString)
    (hreg : s.availableFormatters = init.availableFormatters) (hr : validRange rangeOrder) :
    (rangeOrder s.availableFormatters.keys).Perm allFour := by
  refine (hr _).trans ?_
  rw [hreg, init_keys]
  decide

/-- The space-joined list written by `ListAvailableFormatters` for a non-empty visit. -/
theorem list_of_order (s : State) (rangeOrder : List GoString → List GoString)
    (hne : rangeOrder s.availableFormatters.keys ≠ []) :
    ListAvailableFormatters s rangeOrder
      = .ok (" ".toList.intercalate (rangeOrder s.availableFormatters.keys)) := by
  obtain ⟨k, ks, hks⟩ := List.exists_cons_of_ne_nil hne
  unfold ListAvailableFormatters
  simp only [listLoop_eq, List.nil_append, hks, sepCat_cons_eq]
  exact sliceTo_strip _ _

/-- A join of non-empty names starts with the first name and ends with the last one. -/
theorem intercalate_ends (sep : GoString) (names : List GoString) (hne : names ≠ [])
    (hnames : ∀ k ∈ names, k.head? ≠ some ' ' ∧ k.getLast? ≠ some ' ' ∧ k ≠ []) :
    (sep.intercalate names).head? ≠ some ' ' ∧ (sep.intercalate names).getLast? ≠ some ' ' := by
  constructor
  · obtain ⟨k, ks, hks⟩ := List.exists_cons_of_ne_nil hne
    have hk := hnames k (by rw [hks]; simp)
    obtain ⟨c, cs, hcs⟩ := List.exists_cons_of_ne_nil hk.2.2
    have h1 := hk.1
    rw [hks]
    cases ks with
    | nil => simpa [List.intercalate] using h1
    | cons k' ks' =>
      rw [hcs] at h1 ⊢
      simpa [List.intercalate, List.intersperse] using h1
  · obtain ⟨front, last, hfl⟩ := eq_append_last names hne
    have hl := hnames last (by rw [hfl]; simp)
    rw [hfl, ← sepCat_append_last, List.getLast?_append_of_ne_nil _ hl.2.2]
    exact hl.2.1

/-- C12: `ListAvailableFormatters` returns the names the `range` visits, a permutation of
the registered names, joined by single spaces, once the registry is non-empty; for the
registry built at startup they are the four names `datetime`, `method`, `endpoint`,
`identifier`, each once, and the result neither starts nor ends with a space. -/
theorem ListAvailableFormatters_names (s : State) (rangeOrder : List GoString → List GoString)
    (hr : validRange rangeOrder) :
    (rangeOrder s.availableFormatters.keys).Perm s.availableFormatters.keys
      ∧ (s.availableFormatters ≠ [] →
          ListAvailableFormatters s rangeOrder
            = .ok (" ".toList.intercalate (rangeOrder s.availableFormatters.keys)))
      ∧ (s.availableFormatters = init.availableFormatters →
          (rangeOrder s.availableFormatters.keys).Perm allFour
            ∧ (rangeOrder s.availableFormatters.keys).Nodup
            ∧ (rangeOrder s.availableFormatters.keys).length = 4
            ∧ ListAvailableFormatters s rangeOrder
                = .ok (" ".toList.intercalate (rangeOrder s.availableFormatters.keys))
            ∧ (" ".toList.intercalate (rangeOrder s.availableFormatters.keys)).head? ≠ some ' '
            ∧ (" ".toList.intercalate (rangeOrder s.availableFormatters.keys)).getLast?
                ≠ some ' ') := by
  have hgen : s.availableFormatters ≠ [] → rangeOrder s.availableFormatters.keys ≠ [] := by
    intro hne h
    have hlen := (hr s.availableFormatters.keys).length_eq
    rw [h] at hlen
    simp only [Registry.keys, List.length_nil, List.length_map] at hlen
    exact hne (List.length_eq_zero.mp hlen.symm)
  refine ⟨hr _, fun hne => list_of_order s rangeOrder (hgen hne), ?_⟩
  intro hreg
  have hperm := startup_order s rangeOrder hreg hr
  have hne : rangeOrder s.availableFormatters.keys ≠ [] := by
    intro h
    rw [h] at hperm
    exact absurd hperm.length_eq (by decide)
  have hnames : ∀ k ∈ rangeOrder s.availableFormatters.keys,
      k.head? ≠ some ' ' ∧ k.getLast? ≠ some ' ' ∧ k ≠ [] := by
    intro k hk
    have hk' : k ∈ allFour := hperm.mem_iff.mp hk
    revert k
    have : ∀ k ∈ allFour, k.head? ≠ some ' ' ∧ k.getLast? ≠ some ' ' ∧ k ≠ [] := by decide
    intro k _ hk'
    exact this k hk'
  have hends := intercalate_ends " ".toList _ hne hnames
  exact ⟨hperm, hperm.nodup_iff.mpr (by decide), by rw [hperm.length_eq]; rfl,
    list_of_order s rangeOrder hne, hends.1, hends.2⟩

/-- C12, on the startup registry visited in reverse order of insertion. -/
theorem ListAvailableFormatters_names_witness :
    validRange List.reverse
      ∧ ListAvailableFormatters init List.reverse
          = .ok "datetime method endpoint identifier".toList :=
  ⟨fun keys => List.reverse_perm keys,
    ((ListAvailableFormatters_names init List.reverse
      (fun keys => List.reverse_perm keys)).2.2 rfl).2.2.2.1.trans rfl⟩

/-- C17: for the registry built at startup `PrettyListAvailableFormatters` returns one
line per built-in name, each name once and in the order of the `range`: two spaces and the
name, then a comma and a newline on every line but the last, and a newline alone on the
last. -/
theorem PrettyListAvailableFormatters_lines (s : State)
    (rangeOrder : List GoString → List GoString)
    (hreg : s.availableFormatters = init.availableFormatters) (hr : validRange rangeOrder) :
    ∃ front last, rangeOrder s.availableFormatters.keys = front ++ [last]
      ∧ (front ++ [last]).Perm allFour
      ∧ (front ++ [last]).Nodup
      ∧ PrettyListAvailableFormatters s rangeOrder
          = .ok ((front.map fun k => "  ".toList ++ k ++ ",\n".toList).flatten
              ++ ("  ".toList ++ last ++ "\n".toList)) := by
  have hperm := startup_order s rangeOrder hreg hr
  have hne : rangeOrder s.availableFormatters.keys ≠ [] := by
    intro h
    rw [h] at hperm
    exact absurd hperm.length_eq (by decide)
  obtain ⟨front, last, hfl⟩ := eq_append_last _ hne
  refine ⟨front, last, hfl, hfl ▸ hperm, (hfl ▸ hperm).nodup_iff.mpr (by decide), ?_⟩
  unfold PrettyListAvailableFormatters
  simp only [prettyLoop_eq, List.nil_append, hfl, List.map_append, List.flatten_append,
    List.map_cons, List.map_nil, List.flatten_cons, List.flatten_nil, List.append_nil]
  have hcut := sliceTo_strip
    ((front.map fun k => "  ".toList ++ k ++ ",\n".toList).flatten ++ ("  ".toList ++ last))
    ",\n".toList
  have hlen : (",\n".toList.length : Int) = 2 := rfl
  rw [hlen] at hcut
  simp only [List.append_assoc] at hcut ⊢
  rw [hcut]
  simp

/-- C17, on the startup registry visited in reverse order of insertion. -/
theorem PrettyListAvailableFormatters_lines_witness :
    validRange List.reverse
      ∧ PrettyListAvailableFormatters init List.reverse
          = .ok "  datetime,\n  method,\n  endpoint,\n  identifier\n".toList := by
  refine ⟨fun keys => List.reverse_perm keys, ?_⟩
  obtain ⟨front, last, hfl, _, _, hres⟩ :=
    PrettyListAvailableFormatters_lines init List.reverse rfl (fun keys => List.reverse_perm keys)
  have hkeys : List.reverse init.availableFormatters.keys
      = ["datetime".toList, "method".toList, "endpoint".toList] ++ ["identifier".toList] := by
    decide
  rw [hkeys] at hfl
  obtain ⟨hfront, hlast⟩ := List.append_inj' hfl rfl
  have hlast' : "identifier".toList = last := by simpa using hlast
  rw [hres, ← hfront, ← hlast']
  rfl

/-! ## Purity of the built-in formatters -/

/-- C13, as stated, fails on `datetime`: for one request and response, and the default
configuration, two clock readings a second apart give two different strings. -/
theorem datetime_not_pairPure :
    ¬ (pairPure datetime ∧ pairPure requestMethod ∧ pairPure endpoint ∧ pairPure identifier) := by
  intro h
  have h2 := h.1 init.DefaultLoggingConfig init.DefaultLoggingConfig (testClock 0)
    { testClock 0 with Second := 4 } testRecorder testRequest
  revert h2
  decide

/-- C13, amended: `requestMethod`, `endpoint` and `identifier` return the same string for
the same request, whatever the configuration, the clock and the response are; the result
of `datetime` is fixed by the clock reading and `Config.DateTimeFormat` alone, whatever
the rest of the configuration, the request and the response are. -/
theorem builtin_formatters_dependencies :
    requestPure requestMethod ∧ requestPure endpoint ∧ requestPure identifier
      ∧ ∀ (cfg : LoggingConfig) (sep : GoString) (wr : Option Writer) (t : Time)
          (w w' : ResponseWriter) (r r' : Request),
          datetime cfg t w r
            = datetime { DateTimeFormat := cfg.DateTimeFormat, Separator := sep, Writer := wr }
                t w' r' :=
  ⟨fun _ _ _ _ _ _ _ => rfl, fun _ _ _ _ _ _ _ => rfl, fun _ _ _ _ _ _ _ => rfl,
    fun _ _ _ _ _ _ _ _ => rfl⟩

/-! ## The sink's error -/

/-- The functions the registry of `init` holds. -/
theorem init_lookup (key : GoString) (f : Formatter)
    (h : init.availableFormatters.lookup key = some f) :
    f = identifier ∨ f = endpoint ∨ f = requestMethod ∨ f = datetime := by
  unfold Registry.lookup at h
  simp only [init, Registry.insert, List.filter, List.lookup] at h
  split at h
  · injection h with h; exact Or.inl h.symm
  · split at h
    · injection h with h; exact Or.inr (Or.inl h.symm)
    · split at h
      · injection h with h; exact Or.inr (Or.inr (Or.inl h.symm))
      · split at h
        · injection h with h; exact Or.inr (Or.inr (Or.inr h.symm))
        · cases h

/-- The built-in formatters do not read the configured sink. -/
theorem callFormatter_init_writer (cfg : LoggingConfig) (wr : Option Writer) (t : Time)
    (w : ResponseWriter) (r : Request) (key : GoString) :
    callFormatter init.availableFormatters { cfg with Writer := wr } t w r key
      = callFormatter init.availableFormatters cfg t w r key := by
  unfold callFormatter
  cases hk : init.availableFormatters.lookup key with
  | none => rfl
  | some f =>
    rcases init_lookup key f hk with rfl | rfl | rfl | rfl <;> rfl

theorem loop_init_writer (cfg : LoggingConfig) (wr : Option Writer) (now : Nat → Time)
    (w : ResponseWriter) (r : Request) (keys : List GoString) :
    ∀ (i : Nat) (msg : GoString),
      LogRequest.loop init.availableFormatters { cfg with Writer := wr } now w r keys i msg
        = LogRequest.loop init.availableFormatters cfg now w r keys i msg := by
  induction keys with
  | nil => intro i msg; rfl
  | cons key keys ih =>
    intro i msg
    simp only [LogRequest.loop, callFormatter_init_writer, ih]

theorem line_init_writer (s : State) (wr : Option Writer) (now : Nat → Time)
    (w : ResponseWriter) (r : Request)
    (hreg : s.availableFormatters = init.availableFormatters) :
    LogRequest.line (withWriter s wr) now w r = LogRequest.line s now w r := by
  unfold LogRequest.line withWriter
  simp only [hreg, loop_init_writer, callFormatter_init_writer]

/-- C14: with the built-in registry and a sink whose `Write` reports an error, a call of
`LogRequest` that assembles its line ends without panic after that one `Write`, and the
panic and the writes of every call are those of the same call on a sink that succeeds. -/
theorem LogRequest_ignores_write_error (s : State) (now : Nat → Time) (w : ResponseWriter)
    (r : Request) (wr : Writer) (e : GoString)
    (hreg : s.availableFormatters = init.availableFormatters)
    (hw : s.Config.Writer = some wr) (he : wr.writeErr = some e) :
    (∀ msg, LogRequest.line s now w r = .ok msg →
        (wr.Write msg).2 = some e
          ∧ LogRequest s now w r = { panic := none, writes := [(wr, msg)] })
      ∧ (LogRequest s now w r).panic
          = (LogRequest (withWriter s (some { wr with writeErr := none })) now w r).panic
      ∧ (LogRequest s now w r).sinkWrites
          = (LogRequest (withWriter s (some { wr with writeErr := none })) now w r).sinkWrites := by
  have hline := line_init_writer s (some { wr with writeErr := none }) now w r hreg
  refine ⟨?_, ?_, ?_⟩
  · intro msg hmsg
    refine ⟨by simp [Writer.Write, he], ?_⟩
    simp [LogRequest, hmsg, hw]
  · unfold LogRequest
    rw [hline]
    cases LogRequest.line s now w r with
    | error p => rfl
    | ok msg => simp [hw, withWriter]
  · unfold LogRequest
    rw [hline]
    cases LogRequest.line s now w r with
    | error p => rfl
    | ok msg => simp [hw, withWriter, Outcome.sinkWrites]

/-- C14, on `method` and `endpoint` enabled and a sink that reports `closed pipe`. -/
theorem LogRequest_ignores_write_error_witness :
    LogRequest
        (InitializeLogger init
          { init.DefaultLoggingConfig with
            Writer := some { sink := 2, writeErr := some "closed pipe".toList } }
          ["method".toList, "endpoint".toList]).1 testClock testRecorder testRequest
      = { panic := none
          writes := [({ sink := 2, writeErr := some "closed pipe".toList },
            "GET - /test\n".toList)] } :=
  ((LogRequest_ignores_write_error
    (InitializeLogger init
      { init.DefaultLoggingConfig with
        Writer := some { sink := 2, writeErr := some "closed pipe".toList } }
      ["method".toList, "endpoint".toList]).1 testClock testRecorder testRequest
    { sink := 2, writeErr := some "closed pipe".toList } "closed pipe".toList rfl rfl rfl).1
    "GET - /test\n".toList rfl).2

/-! ## The `id` parameter and the empty list of names -/

theorem valuesGet_absent (q : List (GoString × GoString)) (key : GoString)
    (h : ∀ kv ∈ q, kv.1 ≠ key) : valuesGet q key = [] := by
  unfold valuesGet
  have : q.find? (fun kv => kv.1 == key) = none := by
    rw [List.find?_eq_none]
    intro kv hkv
    simpa using h kv hkv
  rw [this]

theorem valuesGet_first (pre post : List (GoString × GoString)) (key v : GoString)
    (h : ∀ kv ∈ pre, kv.1 ≠ key) : valuesGet (pre ++ (key, v) :: post) key = v := by
  induction pre with
  | nil => simp [valuesGet]
  | cons p pre ih =>
    have hp : p.1 ≠ key := h p (List.mem_cons_self _ _)
    have ih' := ih (fun kv hkv => h kv (List.mem_cons_of_mem _ hkv))
    have hp' : (p.1 == key) = false := by simpa using hp
    unfold valuesGet at ih' ⊢
    simpa [List.find?, hp'] using ih'

/-- C15: `identifier` returns the empty string for a request without an `id` parameter
and the value of the first `id` parameter otherwise; with `method` and `identifier`
enabled, the line of a request without `id` is the method alone and a newline. -/
theorem identifier_query_id (cfg : LoggingConfig) (t : Time) (w : ResponseWriter)
    (r : Request) :
    ((∀ kv ∈ r.Query, kv.1 ≠ "id".toList) → identifier cfg t w r = [])
      ∧ (∀ pre v post, r.Query = pre ++ ("id".toList, v) :: post →
          (∀ kv ∈ pre, kv.1 ≠ "id".toList) → identifier cfg t w r = v)
      ∧ (∀ (s : State) (wr : Writer) (now : Nat → Time),
          s.availableFormatters = init.availableFormatters → s.Config.Writer = some wr →
          s.enabledFormatters = ["method".toList, "identifier".toList] → r.Method ≠ [] →
          (∀ kv ∈ r.Query, kv.1 ≠ "id".toList) →
          LogRequest s now w r = { panic := none, writes := [(wr, r.Method ++ ['\n'])] }) := by
  refine ⟨fun h => valuesGet_absent _ _ h, ?_, ?_⟩
  · intro pre v post hq hpre
    show valuesGet r.Query "id".toList = v
    rw [hq]
    exact valuesGet_first pre post _ v hpre
  · intro s wr now hreg hw hen hm hno
    have hid : valuesGet r.Query "id".toList = [] := valuesGet_absent _ _ hno
    have hres : results s now w r = [r.Method, []] := by
      unfold results
      rw [hreg, hen]
      show [r.Method, valuesGet r.Query "id".toList] = _
      rw [hid]
    have hallreg : allRegistered s := by
      unfold allRegistered
      rw [hreg, hen]
      decide
    have := writes_of_last_empty s now w r wr hallreg hw (by rw [hres]; rfl)
      ⟨r.Method, by rw [hres]; simp, hm⟩
    rw [this, hres]
    simp [List.filter, hm, List.intercalate]

/-- C15, on `GET /test?x=1&id=a&id=b` and on the same request without a query. -/
theorem identifier_query_id_witness :
    identifier init.DefaultLoggingConfig (testClock 0) testRecorder
        { Method := "GET".toList, Path := "/test".toList,
          Query := [("x".toList, "1".toList), ("id".toList, "a".toList),
            ("id".toList, "b".toList)] } = "a".toList
      ∧ identifier init.DefaultLoggingConfig (testClock 0) testRecorder plainRequest = [] :=
  ⟨(identifier_query_id init.DefaultLoggingConfig (testClock 0) testRecorder
      { Method := "GET".toList, Path := "/test".toList,
        Query := [("x".toList, "1".toList), ("id".toList, "a".toList),
          ("id".toList, "b".toList)] }).2.1
      [("x".toList, "1".toList)] "a".toList [("id".toList, "b".toList)] rfl (by decide),
    (identifier_query_id init.DefaultLoggingConfig (testClock 0) testRecorder plainRequest).1
      (by decide)⟩

/-- C16: `InitializeLogger` with no name returns no error, and every call of `LogRequest`
after it panics on the slice `enabledFormatters[:len(enabledFormatters)-1]`, out of
range at `[:-1]`, and writes nothing. -/
theorem InitializeLogger_empty_names (s : State) (c : LoggingConfig) (now : Nat → Time)
    (w : ResponseWriter) (r : Request) :
    (InitializeLogger s c []).2 = none
      ∧ (InitializeLogger s c []).1.enabledFormatters = []
      ∧ LogRequest (InitializeLogger s c []).1 now w r
          = { panic := some .sliceBounds, writes := [] } := by
  refine ⟨rfl, rfl, ?_⟩
  simp [LogRequest, LogRequest.line, InitializeLogger, sliceTo]

end Logging
